import Mathlib

/-!
Verification development for the Ethos-N driver stack's profiling converter
(`tools/visualizers/profiling_converter/src/main.rs`).

The Rust program is shallowly embedded: each Rust function is translated to an
executable Lean definition of the same name.  Machine integers (`u64`, `u32`,
`usize`) are modelled as `Nat` (timestamps, ids and indices are never
subtracted or overflowed by the source).  Rust panics (`unwrap`, `expect`,
out-of-bounds indexing, explicit `panic!`) are modelled as `Except ConvError`
errors, with one error tag per panic site family, named after the error
identities of the converter's documentation.  `HashMap` contents are modelled
as association lists (`insertKV`/`lookupKV`/`eraseKV` mirror
`insert`/`get`/`remove`); where the source *iterates* a `HashMap` (whose
iteration order Rust leaves unspecified and which varies between processes),
the iteration order is taken as an explicit reordering parameter.
-/

namespace ProfilingConverter

/-- Error tags for the panic sites of the converter, one per panic family:
`commandStreamExhausted` for the `expect` in `CommandList::advance`,
`unknownEventCategory` for the `panic!` on an unrecognized `metadata_category`,
`unknownEntryType` for the `panic!` on an unrecognized entry `type`,
`unmatchedEndEvent` for the `unwrap` of the in-progress-events lookup,
`invertedDuration` for the `panic!` on an End timestamp before its Begin,
`agentEndUnset` for the `unwrap` of `agent.end_timestamp` in `process_finalize`,
`missingField` for `unwrap`s of absent fields or failed string-to-number parses,
`indexOutOfBounds` for slice/`Vec` indexing panics,
`malformedStream` for XML-parser stack underflows, and
`addTimelineBarsUnimplemented` for the explicit unimplemented-feature panic. -/
inductive ConvError where
  | commandStreamExhausted
  | unknownEventCategory
  | unknownEntryType
  | unmatchedEndEvent
  | invertedDuration
  | agentEndUnset
  | missingField
  | indexOutOfBounds
  | malformedStream
  | addTimelineBarsUnimplemented
deriving DecidableEq

/-- Association-list model of `HashMap::insert` (replace an existing key's
value in place, otherwise append). -/
def insertKV {κ α : Type} [DecidableEq κ] : List (κ × α) → κ → α → List (κ × α)
  | [], k, v => [(k, v)]
  | (k', v') :: rest, k, v =>
      if k' = k then (k, v) :: rest else (k', v') :: insertKV rest k v

/-- Association-list model of `HashMap::get`. -/
def lookupKV {κ α : Type} [DecidableEq κ] (m : List (κ × α)) (k : κ) : Option α :=
  (m.find? (fun p => decide (p.1 = k))).map (·.2)

/-- Association-list model of `HashMap::remove` (the removed value is unused
by the source, so only the resulting map is returned). -/
def eraseKV {κ α : Type} [DecidableEq κ] (m : List (κ × α)) (k : κ) : List (κ × α) :=
  m.filter (fun p => decide (p.1 ≠ k))

/-- `XmlElement` (main.rs:75): information about an agent or command XML
element.  `child_element_values : HashMap<String, String>` is modelled as an
association list. -/
structure XmlElement where
  name : String
  child_element_values : List (String × String)
  text_representation : String
deriving DecidableEq

/-- `CommandList` (main.rs:82).  `current_idx_per_filter` is a
`HashMap<String, usize>`; since `advance` inserts `0` before the first read of
a missing filter key (main.rs:92-94), the map is modelled as a total function
defaulting to `0`. -/
structure CommandList where
  commands : List XmlElement
  current_idx_per_filter : String → Nat

/-- `CommandList::default()`: no commands, every cursor at 0. -/
def CommandList.default : CommandList :=
  { commands := [], current_idx_per_filter := fun _ => 0 }

/-- A `CommandList` with the given commands and all cursors fresh (i.e. the
state produced by `parse_command_stream` for a catalogue's element list). -/
def CommandList.mk0 (commands : List XmlElement) : CommandList :=
  { commands := commands, current_idx_per_filter := fun _ => 0 }

/-- The scan loop of `CommandList::advance` (main.rs:99-107), recursing on
the suffix of commands not yet examined: starting at `idx`, skip past every
command whose name differs from `command_name`; the `expect` on
`commands.get(idx)` panics (modelled by `none`) when the scan runs past the
end of the command list. -/
def scanLoopAux (suffix : List XmlElement) (command_name : String) (idx : Nat) : Option Nat :=
  match suffix with
  | [] => none
  | c :: rest =>
      if c.name = command_name then some idx
      else scanLoopAux rest command_name (idx + 1)

/-- The scan loop entered at cursor `idx` (`commands.get(idx)` is the head of
`commands.drop idx`). -/
def scanLoop (commands : List XmlElement) (command_name : String) (idx : Nat) : Option Nat :=
  scanLoopAux (commands.drop idx) command_name idx

/-- `CommandList::advance` (main.rs:91-117): look up (default-0) the cursor of
`filter_id`, scan forward for the next command named `command_name`, return
its index and store index+1 as the new cursor for `filter_id`. -/
def CommandList.advance (self : CommandList) (filter_id command_name : String) :
    Except ConvError (Nat × CommandList) :=
  let idx := self.current_idx_per_filter filter_id
  match scanLoop self.commands command_name idx with
  | none => .error .commandStreamExhausted
  | some result =>
      .ok (result,
        { self with
          current_idx_per_filter := fun k =>
            if k = filter_id then result + 1 else self.current_idx_per_filter k })

/-- Iterate `advance` `k` times for one filter and one command name, collecting
the returned indices in call order. -/
def advanceN (cl : CommandList) (filter_id command_name : String) :
    Nat → Except ConvError (List Nat × CommandList)
  | 0 => .ok ([], cl)
  | Nat.succ k =>
      match cl.advance filter_id command_name with
      | .error e => .error e
      | .ok (i, cl') =>
          match advanceN cl' filter_id command_name k with
          | .error e => .error e
          | .ok (rest, cl'') => .ok (i :: rest, cl'')

/-- The indices returned by `k` successive `advance` calls (dropping the final
catalogue state, which contains a function and has no decidable equality). -/
def advanceIndices (cl : CommandList) (filter_id command_name : String) (k : Nat) :
    Except ConvError (List Nat) :=
  match advanceN cl filter_id command_name k with
  | .error e => .error e
  | .ok (l, _) => .ok l

/-- The list of indices, in ascending order, of the commands named `name`
in `commands` — the "occurrences of `name` in descriptor-stream order". -/
def occurrences (commands : List XmlElement) (name : String) : List Nat :=
  match commands with
  | [] => []
  | c :: rest =>
      if c.name = name then 0 :: (occurrences rest name).map (· + 1)
      else (occurrences rest name).map (· + 1)

/-- Sanity characterization: `j ∈ occurrences commands name` exactly when the
command at index `j` exists and is named `name`. -/
theorem mem_occurrences (commands : List XmlElement) (name : String) (j : Nat) :
    j ∈ occurrences commands name ↔
      ∃ c, commands.get? j = some c ∧ c.name = name := by
  induction commands generalizing j with
  | nil => simp [occurrences]
  | cons c rest ih =>
      cases j with
      | zero =>
          simp only [occurrences]
          by_cases hc : c.name = name
          · simp [hc]
          · simp only [if_neg hc]
            constructor
            · intro hmem
              rcases List.mem_map.mp hmem with ⟨x, _, hx⟩
              omega
            · rintro ⟨c', hc', hn⟩
              simp only [List.get?] at hc'
              cases hc'
              exact absurd hn hc
      | succ j =>
          simp only [occurrences]
          by_cases hc : c.name = name
          · simp only [if_pos hc, List.mem_cons]
            constructor
            · intro h
              rcases h with h | h
              · omega
              · rcases List.mem_map.mp h with ⟨x, hx, hxe⟩
                have hxj : x = j := by omega
                rw [hxj] at hx
                exact (ih j).mp hx
            · intro h
              right
              exact List.mem_map.mpr ⟨j, (ih j).mpr h, rfl⟩
          · simp only [if_neg hc]
            constructor
            · intro h
              rcases List.mem_map.mp h with ⟨x, hx, hxe⟩
              have hxj : x = j := by omega
              rw [hxj] at hx
              exact (ih j).mp hx
            · intro h
              exact List.mem_map.mpr ⟨j, (ih j).mpr h, rfl⟩

/-- The occurrence list is strictly increasing. -/
theorem occurrences_pairwise (commands : List XmlElement) (name : String) :
    (occurrences commands name).Pairwise (· < ·) := by
  induction commands with
  | nil => simp [occurrences]
  | cons c rest ih =>
      simp only [occurrences]
      have hmap : ((occurrences rest name).map (· + 1)).Pairwise (· < ·) :=
        List.Pairwise.map _ (fun a b h => by omega) ih
      by_cases hc : c.name = name
      · simp only [if_pos hc]
        refine List.pairwise_cons.mpr ⟨?_, hmap⟩
        intro a ha
        rcases List.mem_map.mp ha with ⟨x, _, hx⟩
        omega
      · simpa [hc] using hmap

/-- The scan loop, characterized: it returns the first occurrence of
`command_name` at or after `idx` (the head of the occurrence list of the
dropped prefix, shifted back by `idx`), and `none` when there is none. -/
theorem scanLoopAux_eq_head (l : List XmlElement) (name : String) (idx : Nat) :
    scanLoopAux l name idx = ((occurrences l name).head?).map (· + idx) := by
  induction l generalizing idx with
  | nil => rfl
  | cons c rest ih =>
      by_cases hc : c.name = name
      · simp [scanLoopAux, occurrences, hc]
      · simp only [scanLoopAux, occurrences, if_neg hc, ih (idx + 1), List.head?_map,
          Option.map_map]
        congr 1
        funext x
        simp only [Function.comp]
        omega

theorem scanLoop_eq_head (commands : List XmlElement) (name : String) (idx : Nat) :
    scanLoop commands name idx =
      ((occurrences (commands.drop idx) name).head?).map (· + idx) :=
  scanLoopAux_eq_head (commands.drop idx) name idx

/-- Decomposition of the occurrence list: the occurrences after the head
occurrence `j` are exactly the occurrences of the list dropped past `j`,
shifted by `j + 1`. -/
theorem occurrences_cons_decompose (cs : List XmlElement) (name : String) (j : Nat)
    (t : List Nat) (h : occurrences cs name = j :: t) :
    t = (occurrences (cs.drop (j + 1)) name).map (· + (j + 1)) := by
  induction cs generalizing j t with
  | nil => simp [occurrences] at h
  | cons c rest ih =>
      by_cases hc : c.name = name
      · simp only [occurrences, if_pos hc] at h
        cases h
        rfl
      · simp only [occurrences, if_neg hc] at h
        cases hocc : occurrences rest name with
        | nil => rw [hocc] at h; simp at h
        | cons j' t' =>
            rw [hocc] at h
            simp only [List.map_cons] at h
            cases h
            have ht' := ih j' t' hocc
            rw [ht']
            have hdrop : (c :: rest).drop (j' + 1 + 1) = rest.drop (j' + 1) := rfl
            rw [hdrop, List.map_map]
            congr 1

/-- Behaviour of `k` successive `advance` calls for one filter (cursor at
`f F`): if at least `k` occurrences remain at or past the cursor, the calls
return exactly those occurrence indices in order; otherwise the run of calls
aborts with `commandStreamExhausted`. -/
theorem advanceN_spec (k : Nat) (commands : List XmlElement) (F N : String)
    (f : String → Nat) :
    (k ≤ ((occurrences (commands.drop (f F)) N).map (· + f F)).length →
      ∃ cl', advanceN ⟨commands, f⟩ F N k =
        .ok (((occurrences (commands.drop (f F)) N).map (· + f F)).take k, cl'))
    ∧ (((occurrences (commands.drop (f F)) N).map (· + f F)).length < k →
      advanceN ⟨commands, f⟩ F N k = .error .commandStreamExhausted) := by
  induction k generalizing f with
  | zero =>
      constructor
      · intro _
        exact ⟨⟨commands, f⟩, rfl⟩
      · intro h
        omega
  | succ k ih =>
      have hadv : (CommandList.advance ⟨commands, f⟩ F N) =
          match scanLoop commands N (f F) with
          | none => .error .commandStreamExhausted
          | some result =>
              .ok (result, ⟨commands, fun s => if s = F then result + 1 else f s⟩) := rfl
      cases hocc : occurrences (commands.drop (f F)) N with
      | nil =>
          have hscan : scanLoop commands N (f F) = none := by
            rw [scanLoop_eq_head, hocc]; rfl
          constructor
          · intro hk
            simp [hocc] at hk
          · intro _
            simp only [advanceN, hadv, hscan]
      | cons j t =>
          have hscan : scanLoop commands N (f F) = some (j + f F) := by
            rw [scanLoop_eq_head, hocc]; rfl
          have ht := occurrences_cons_decompose _ _ _ _ hocc
          set f' : String → Nat := fun s => if s = F then (j + f F) + 1 else f s with hf'
          have hfF : f' F = f F + (j + 1) := by simp [hf']; omega
          have hdrop2 : (commands.drop (f F)).drop (j + 1) = commands.drop (f F + (j + 1)) :=
            List.drop_drop (j + 1) (f F) commands
          have hmapt : t.map (· + f F) =
              (occurrences (commands.drop (f' F)) N).map (· + f' F) := by
            rw [ht, hdrop2, List.map_map, hfF]
            congr 1
            funext x
            simp only [Function.comp]
            omega
          have ihs := ih f'
          constructor
          · intro hk
            simp only [hocc, List.length_map, List.length_cons] at hk
            have hk' : k ≤ ((occurrences (commands.drop (f' F)) N).map (· + f' F)).length := by
              have : t.length = ((occurrences (commands.drop (f' F)) N).map (· + f' F)).length := by
                rw [← hmapt]; simp
              omega
            rcases ihs.1 hk' with ⟨cl', hcl'⟩
            refine ⟨cl', ?_⟩
            simp only [advanceN, hadv, hscan]
            rw [hcl']
            simp only [hocc, List.map_cons, List.take_succ_cons]
            rw [hmapt]
          · intro hk
            simp only [hocc, List.length_map, List.length_cons] at hk
            have hk' : ((occurrences (commands.drop (f' F)) N).map (· + f' F)).length < k := by
              have : t.length = ((occurrences (commands.drop (f' F)) N).map (· + f' F)).length := by
                rw [← hmapt]; simp
              omega
            have herr := ihs.2 hk'
            simp only [advanceN, hadv, hscan, herr]

/-- C1: for every command catalogue queried through a fixed filter `F` with a
fixed command name `N`, the `i`-th call to `CommandList::advance(F, N)` returns
the index of the `i`-th occurrence, in descriptor-stream order, of a command
named `N` (the first `k` calls return exactly the first `k` entries of the
occurrence-index list), and the sequence of returned indices is strictly
increasing, so no index is ever returned twice for the same filter. -/
theorem C1_advance_returns_ith_occurrence (commands : List XmlElement) (F N : String)
    (k : Nat) (h : k ≤ (occurrences commands N).length) :
    advanceIndices (CommandList.mk0 commands) F N k =
        .ok ((occurrences commands N).take k)
    ∧ ((occurrences commands N).take k).Pairwise (· < ·) := by
  have hspec := advanceN_spec k commands F N (fun _ => 0)
  have h0 : ((occurrences (commands.drop ((fun _ : String => 0) F)) N).map
      (· + (fun _ : String => 0) F)) = occurrences commands N := by
    simp
  rw [h0] at hspec
  rcases hspec.1 h with ⟨cl', hcl'⟩
  constructor
  · simp only [advanceIndices, CommandList.mk0]
    rw [hcl']
  · exact List.Pairwise.sublist (List.take_sublist k _) (occurrences_pairwise commands N)

/-- A small concrete catalogue: commands named A, B, A at indices 0, 1, 2. -/
def sampleCommands : List XmlElement :=
  [{ name := "A", child_element_values := [], text_representation := "" },
   { name := "B", child_element_values := [], text_representation := "" },
   { name := "A", child_element_values := [], text_representation := "" }]

theorem C1_advance_returns_ith_occurrence_witness :
    2 ≤ (occurrences sampleCommands "A").length ∧
      (advanceIndices (CommandList.mk0 sampleCommands) "MyFilter" "A" 2 =
          .ok ((occurrences sampleCommands "A").take 2)
        ∧ ((occurrences sampleCommands "A").take 2).Pairwise (· < ·)) :=
  ⟨by decide, C1_advance_returns_ith_occurrence sampleCommands "MyFilter" "A" 2 (by decide)⟩

/-- C2: `advance(F, N)` fails (fatally, modelled as `commandStreamExhausted`)
exactly when the forward scan from `F`'s cursor runs past the end of the
command sequence without finding a command named `N` (i.e. every occurrence of
`N` lies strictly before the cursor); and if the catalogue contains exactly 3
commands named `N`, the 4th request for `N` under the same filter aborts. -/
theorem C2_advance_exhaustion :
    (∀ (cl : CommandList) (F N : String),
      cl.advance F N = .error .commandStreamExhausted ↔
        ∀ j ∈ occurrences cl.commands N, j < cl.current_idx_per_filter F)
    ∧ (∀ (commands : List XmlElement) (F N : String),
        (occurrences commands N).length = 3 →
        advanceIndices (CommandList.mk0 commands) F N 4 =
          .error .commandStreamExhausted) := by
  constructor
  · intro cl F N
    have hscan := scanLoop_eq_head cl.commands N (cl.current_idx_per_filter F)
    cases hocc : occurrences (cl.commands.drop (cl.current_idx_per_filter F)) N with
    | nil =>
        rw [hocc] at hscan
        simp only [CommandList.advance, hscan]
        constructor
        · intro _ j hj
          rcases (mem_occurrences _ _ _).mp hj with ⟨c, hget, hname⟩
          by_contra hge
          push_neg at hge
          have hmem : (j - cl.current_idx_per_filter F) ∈
              occurrences (cl.commands.drop (cl.current_idx_per_filter F)) N := by
            refine (mem_occurrences _ _ _).mpr ⟨c, ?_, hname⟩
            rw [List.get?_drop]
            have : cl.current_idx_per_filter F + (j - cl.current_idx_per_filter F) = j := by
              omega
            rw [this]
            exact hget
          rw [hocc] at hmem
          simp at hmem
        · intro _
          rfl
    | cons j' t =>
        rw [hocc] at hscan
        simp only [Option.map, List.head?] at hscan
        simp only [CommandList.advance, hscan]
        constructor
        · intro habs
          exact absurd habs (by simp)
        · intro hall
          have hj' : j' ∈ occurrences (cl.commands.drop (cl.current_idx_per_filter F)) N := by
            rw [hocc]; exact List.mem_cons_self _ _
          rcases (mem_occurrences _ _ _).mp hj' with ⟨c, hget, hname⟩
          rw [List.get?_drop] at hget
          have hmem : cl.current_idx_per_filter F + j' ∈ occurrences cl.commands N :=
            (mem_occurrences _ _ _).mpr ⟨c, hget, hname⟩
          have := hall _ hmem
          omega
  · intro commands F N hlen
    have hspec := advanceN_spec 4 commands F N (fun _ => 0)
    have h0 : ((occurrences (commands.drop ((fun _ : String => 0) F)) N).map
        (· + (fun _ : String => 0) F)) = occurrences commands N := by
      simp
    rw [h0] at hspec
    have herr := hspec.2 (by omega)
    simp only [advanceIndices, CommandList.mk0]
    rw [herr]

/-- A catalogue with exactly three commands named X (indices 0, 2, 3). -/
def sampleCommands3 : List XmlElement :=
  [{ name := "X", child_element_values := [], text_representation := "" },
   { name := "Y", child_element_values := [], text_representation := "" },
   { name := "X", child_element_values := [], text_representation := "" },
   { name := "X", child_element_values := [], text_representation := "" }]

theorem C2_advance_exhaustion_witness :
    (occurrences sampleCommands3 "X").length = 3 ∧
      advanceIndices (CommandList.mk0 sampleCommands3) "SomeCategory" "X" 4 =
        .error .commandStreamExhausted :=
  ⟨by decide, C2_advance_exhaustion.2 sampleCommands3 "SomeCategory" "X" (by decide)⟩

/-- `Agent` (main.rs:120). -/
structure Agent where
  xml : XmlElement
  start_timestamp : Option Nat
  end_timestamp : Option Nat
deriving DecidableEq

/-- The XML events consumed by `parse_command_stream`'s loop (main.rs:194-245).
`startElement` carries the element name and, standing in for the
`TextPosition`-based reconstruction of `finish_pending` (main.rs:173-189,
which re-reads the input file's lines — an I/O artifact), the source-text
slice of the element. -/
inductive ParseEvent where
  | startElement (name : String) (text : String)
  | characters (data : String)
  | endElement
  | endDocument
deriving DecidableEq

/-- `PendingXmlElement` (main.rs:167): an XML element whose opening tag has
been seen but not its closing tag. -/
structure PendingXmlElement where
  name : String
  child_element_values : List (String × String)
  text : String
deriving DecidableEq

/-- `finish_pending` (main.rs:173): converts a `PendingXmlElement` into a
finished `XmlElement` (the text reconstruction from source lines is carried
by the pending element in this model). -/
def finish_pending (p : PendingXmlElement) : XmlElement :=
  { name := p.name,
    child_element_values := p.child_element_values,
    text_representation := p.text }

/-- The mutable state of `parse_command_stream`'s event loop
(main.rs:160-192).  The stacks are lists with the most recently pushed
element at the head (`Vec::push`/`pop`/`last` act on the head here). -/
structure ParseState where
  agents : List Agent
  dma_rd_commands : CommandList
  dma_wr_commands : CommandList
  mce_commands : CommandList
  ple_commands : CommandList
  element_name_stack : List String
  pending_elements_stack : List PendingXmlElement

/-- One iteration of `parse_command_stream`'s event loop (main.rs:196-244).

* `StartElement`: push a pending element and the element name.
* `Characters`: record the text under the innermost element's name into the
  element two levels up (`pending_elements_stack.get_mut(n - 2)`); when fewer
  than two elements are open the source's `n - 2` underflows and
  `get_mut` finds nothing (release build), so nothing is recorded.
* `EndElement`: pop both stacks (`pop().unwrap()` panics on an empty pending
  stack, modelled as `malformedStream`) and classify the closed element by the
  new top of the name stack: under `AGENTS` append a new `Agent` with both
  lifetime timestamps unset; under one of the four category containers append
  to that catalogue's command list; otherwise discard the element.
* `EndDocument` and all other events: no state change. -/
def parse_command_stream_step (s : ParseState) (ev : ParseEvent) :
    Except ConvError ParseState :=
  match ev with
  | .startElement name text =>
      .ok { s with
        pending_elements_stack :=
          { name := name, child_element_values := [], text := text } ::
            s.pending_elements_stack,
        element_name_stack := name :: s.element_name_stack }
  | .characters data =>
      match s.pending_elements_stack with
      | innermost :: grandparent :: rest =>
          match s.element_name_stack.head? with
          | none => .error .malformedStream
          | some last =>
              .ok { s with
                pending_elements_stack :=
                  innermost ::
                    { grandparent with
                      child_element_values :=
                        insertKV grandparent.child_element_values last data } ::
                    rest }
      | _ => .ok s
  | .endElement =>
      match s.pending_elements_stack with
      | [] => .error .malformedStream
      | pending :: pendingRest =>
          let nameStack' := s.element_name_stack.drop 1
          let s' := { s with
            element_name_stack := nameStack',
            pending_elements_stack := pendingRest }
          if nameStack'.head? = some "AGENTS" then
            .ok { s' with
              agents := s.agents ++
                [{ xml := finish_pending pending,
                   start_timestamp := none, end_timestamp := none }] }
          else if nameStack'.head? = some "DMA_RD_COMMANDS" then
            .ok { s' with
              dma_rd_commands :=
                { s.dma_rd_commands with
                  commands := s.dma_rd_commands.commands ++ [finish_pending pending] } }
          else if nameStack'.head? = some "DMA_WR_COMMANDS" then
            .ok { s' with
              dma_wr_commands :=
                { s.dma_wr_commands with
                  commands := s.dma_wr_commands.commands ++ [finish_pending pending] } }
          else if nameStack'.head? = some "MCE_COMMANDS" then
            .ok { s' with
              mce_commands :=
                { s.mce_commands with
                  commands := s.mce_commands.commands ++ [finish_pending pending] } }
          else if nameStack'.head? = some "PLE_COMMANDS" then
            .ok { s' with
              ple_commands :=
                { s.ple_commands with
                  commands := s.ple_commands.commands ++ [finish_pending pending] } }
          else
            .ok s'
  | .endDocument => .ok s

/-- C8: for every element closed by the stream parser (an `EndElement` with a
pending element on the stack), classification is by the immediate enclosing
container name (the name-stack top after popping the closed element): under
`AGENTS` a new `Agent` is appended with both lifetime timestamps unset; under
one of the four pipeline-category containers the element is appended to that
category's command catalogue (appending preserves declaration order); under
any other container every catalogue and the agent list are left unchanged and
no error is raised. -/
theorem C8_end_element_classification (s : ParseState) (p : PendingXmlElement)
    (rest : List PendingXmlElement) (h : s.pending_elements_stack = p :: rest) :
    ∃ s', parse_command_stream_step s .endElement = .ok s' ∧
      (let encl := (s.element_name_stack.drop 1).head?
      s'.agents = (if encl = some "AGENTS" then
          s.agents ++ [{ xml := finish_pending p,
                         start_timestamp := none, end_timestamp := none }]
        else s.agents)
      ∧ s'.dma_rd_commands.commands = (if encl = some "DMA_RD_COMMANDS" then
          s.dma_rd_commands.commands ++ [finish_pending p]
        else s.dma_rd_commands.commands)
      ∧ s'.dma_wr_commands.commands = (if encl = some "DMA_WR_COMMANDS" then
          s.dma_wr_commands.commands ++ [finish_pending p]
        else s.dma_wr_commands.commands)
      ∧ s'.mce_commands.commands = (if encl = some "MCE_COMMANDS" then
          s.mce_commands.commands ++ [finish_pending p]
        else s.mce_commands.commands)
      ∧ s'.ple_commands.commands = (if encl = some "PLE_COMMANDS" then
          s.ple_commands.commands ++ [finish_pending p]
        else s.ple_commands.commands)
      ∧ s'.element_name_stack = s.element_name_stack.drop 1
      ∧ s'.pending_elements_stack = rest) := by
  simp only [parse_command_stream_step, h]
  by_cases h1 : (s.element_name_stack.drop 1).head? = some "AGENTS"
  · rw [if_pos h1]
    refine ⟨_, rfl, ?_⟩
    simp only [List.head?_drop] at h1
    simp [h1]
  · by_cases h2 : (s.element_name_stack.drop 1).head? = some "DMA_RD_COMMANDS"
    · rw [if_neg h1, if_pos h2]
      refine ⟨_, rfl, ?_⟩
      simp only [List.head?_drop] at h1 h2
      simp [h1, h2]
    · by_cases h3 : (s.element_name_stack.drop 1).head? = some "DMA_WR_COMMANDS"
      · rw [if_neg h1, if_neg h2, if_pos h3]
        refine ⟨_, rfl, ?_⟩
        simp only [List.head?_drop] at h1 h2 h3
        simp [h1, h2, h3]
      · by_cases h4 : (s.element_name_stack.drop 1).head? = some "MCE_COMMANDS"
        · rw [if_neg h1, if_neg h2, if_neg h3, if_pos h4]
          refine ⟨_, rfl, ?_⟩
          simp only [List.head?_drop] at h1 h2 h3 h4
          simp [h1, h2, h3, h4]
        · by_cases h5 : (s.element_name_stack.drop 1).head? = some "PLE_COMMANDS"
          · rw [if_neg h1, if_neg h2, if_neg h3, if_neg h4, if_pos h5]
            refine ⟨_, rfl, ?_⟩
            simp only [List.head?_drop] at h1 h2 h3 h4 h5
            simp [h1, h2, h3, h4, h5]
          · rw [if_neg h1, if_neg h2, if_neg h3, if_neg h4, if_neg h5]
            refine ⟨_, rfl, ?_⟩
            simp only [List.head?_drop] at h1 h2 h3 h4 h5
            simp [h1, h2, h3, h4, h5]

/-- A concrete parser state: one pending element `IFM_STREAMER` open inside
`AGENTS` inside `COMMAND_STREAM`. -/
def sampleParseState : ParseState :=
  { agents := []
    dma_rd_commands := CommandList.default
    dma_wr_commands := CommandList.default
    mce_commands := CommandList.default
    ple_commands := CommandList.default
    element_name_stack := ["IFM_STREAMER", "AGENTS", "COMMAND_STREAM"]
    pending_elements_stack :=
      [{ name := "IFM_STREAMER", child_element_values := [("BUFFER_ID", "3")],
         text := "<IFM_STREAMER>...</IFM_STREAMER>" }] }

theorem C8_end_element_classification_witness :
    ∃ s', parse_command_stream_step sampleParseState .endElement = .ok s' ∧
      (let encl := (sampleParseState.element_name_stack.drop 1).head?
      s'.agents = (if encl = some "AGENTS" then
          sampleParseState.agents ++
            [{ xml := finish_pending
                 { name := "IFM_STREAMER", child_element_values := [("BUFFER_ID", "3")],
                   text := "<IFM_STREAMER>...</IFM_STREAMER>" },
               start_timestamp := none, end_timestamp := none }]
        else sampleParseState.agents)
      ∧ s'.dma_rd_commands.commands = (if encl = some "DMA_RD_COMMANDS" then
          sampleParseState.dma_rd_commands.commands ++
            [finish_pending
               { name := "IFM_STREAMER", child_element_values := [("BUFFER_ID", "3")],
                 text := "<IFM_STREAMER>...</IFM_STREAMER>" }]
        else sampleParseState.dma_rd_commands.commands)
      ∧ s'.dma_wr_commands.commands = (if encl = some "DMA_WR_COMMANDS" then
          sampleParseState.dma_wr_commands.commands ++
            [finish_pending
               { name := "IFM_STREAMER", child_element_values := [("BUFFER_ID", "3")],
                 text := "<IFM_STREAMER>...</IFM_STREAMER>" }]
        else sampleParseState.dma_wr_commands.commands)
      ∧ s'.mce_commands.commands = (if encl = some "MCE_COMMANDS" then
          sampleParseState.mce_commands.commands ++
            [finish_pending
               { name := "IFM_STREAMER", child_element_values := [("BUFFER_ID", "3")],
                 text := "<IFM_STREAMER>...</IFM_STREAMER>" }]
        else sampleParseState.mce_commands.commands)
      ∧ s'.ple_commands.commands = (if encl = some "PLE_COMMANDS" then
          sampleParseState.ple_commands.commands ++
            [finish_pending
               { name := "IFM_STREAMER", child_element_values := [("BUFFER_ID", "3")],
                 text := "<IFM_STREAMER>...</IFM_STREAMER>" }]
        else sampleParseState.ple_commands.commands)
      ∧ s'.element_name_stack = sampleParseState.element_name_stack.drop 1
      ∧ s'.pending_elements_stack = []) :=
  C8_end_element_classification sampleParseState _ [] rfl

/-- `COLORS` (main.rs:25): the fixed color-name palette (29 entries, including
the source's typo in entry 26). -/
def COLORS : List String :=
  ["thread_state_uninterruptible", "thread_state_iowait", "thread_state_running",
   "thread_state_runnable", "thread_state_unknown", "background_memory_dump",
   "detailed_memory_dump", "vsync_highlight_color", "generic_work", "good", "bad",
   "grey", "yellow", "olive", "rail_response", "rail_animation", "rail_idle",
   "rail_load", "startup", "heap_dump_stack_frame", "heap_dump_object_type",
   "heap_dump_child_node_arrow", "cq_build_running", "cq_build_passed",
   "cq_build_failed", "cq_build_abandoned", "cq_build_attempt_runnig",
   "cq_build_attempt_passed", "cq_build_attempt_failed"]

/-- `hash_string` (main.rs:57).  The source hashes with `DefaultHasher::new()`
(SipHash-1-3 with fixed zero keys), a fixed pure function `&str -> u64` that
is identical on every run and every process; reimplementing SipHash is out of
scope, so the model uses a different fixed pure function `String -> u64`
(a 64-bit polynomial hash).  Every property proved below depends only on
`hash_string` being a pure function of the string (and, at concrete inputs,
on concrete hash values being distinct, which is checked by evaluation). -/
def hash_string (s : String) : Nat :=
  s.data.foldl (fun h c => (h * 1099511628211 + c.toNat) % 18446744073709551616)
    14695981039346656037

/-- One runtime profiling entry, with the JSON fields the converter reads:
`type`, `timestamp`, `id`, `metadata_category`, `metadata.label`,
`counter_name`, `counter_value` (each variant only reads its own fields). -/
structure Entry where
  entry_type : String
  timestamp : Nat
  id : Nat
  metadata_category : String
  metadata_label : String
  counter_name : String
  counter_value : Nat
deriving DecidableEq

/-- The `args` JSON object attached to an output record, with the keys the
converter can insert (`absent` is `none`).  The counter path inserts one
dynamically-named key `{counter_name: counter_value}`, modelled by the two
`counter_*` fields; the `M` metadata records use the `name` key. -/
structure Args where
  entry : Option Entry
  command_idx : Option Nat
  command_xml : Option String
  agent_id : Option Nat
  agent_xml : Option String
  agent_type : Option String
  hardware_id : Option Nat
  label : Option String
  counter_name : Option String
  counter_value : Option Nat
  name : Option String
deriving DecidableEq

/-- The empty `args` object. -/
def Args.empty : Args :=
  { entry := none, command_idx := none, command_xml := none, agent_id := none,
    agent_xml := none, agent_type := none, hardware_id := none, label := none,
    counter_name := none, counter_value := none, name := none }

/-- One output trace record (a `serde_json` object in the source); a field is
`none` when the source's record shape omits that key. -/
structure Record where
  name : Option String
  ph : String
  ts : Option Nat
  pid : Option Nat
  tid : Option Nat
  args : Option Args
  cname : Option String
deriving DecidableEq

/-- A decimal digit's value. -/
def digit? (c : Char) : Option Nat :=
  if '0' ≤ c ∧ c ≤ '9' then some (c.toNat - '0'.toNat) else none

/-- Parse a decimal numeral, as in `str::parse::<usize>` (empty and
malformed strings fail). -/
def parseNat? (s : String) : Option Nat :=
  match s.data with
  | [] => none
  | l => l.foldl (fun acc c => acc.bind (fun v => (digit? c).map (fun d => v * 10 + d)))
      (some 0)

/-- A hexadecimal digit's value. -/
def hexDigit? (c : Char) : Option Nat :=
  if '0' ≤ c ∧ c ≤ '9' then some (c.toNat - '0'.toNat)
  else if 'a' ≤ c ∧ c ≤ 'f' then some (c.toNat - 'a'.toNat + 10)
  else if 'A' ≤ c ∧ c ≤ 'F' then some (c.toNat - 'A'.toNat + 10)
  else none

/-- Parse a hexadecimal numeral from a character list (empty and malformed
inputs fail, as in `u32::from_str_radix(_, 16)`). -/
def hexNat? (l : List Char) : Option Nat :=
  match l with
  | [] => none
  | _ =>
      l.foldl (fun acc c => acc.bind (fun v => (hexDigit? c).map (fun d => v * 16 + d)))
        (some 0)

/-- The hardware-id extraction of the `FirmwareDmaRead`/`FirmwareDmaWrite`
branches (main.rs:351-356): slice off the first two bytes of the `DMA_CMD`
field (a panic when the field is shorter), parse the rest as a hexadecimal
`u32` (`unwrap` panics on parse failure or overflow), and mask the low three
bits. -/
def parseDmaHardwareId (dma_cmd : String) : Except ConvError Nat :=
  if dma_cmd.data.length < 2 then .error .indexOutOfBounds
  else match hexNat? (dma_cmd.data.drop 2) with
    | none => .error .missingField
    | some v => if v < 4294967296 then .ok (v &&& 7) else .error .missingField

/-- The result tuple of the `handle_command_and_agent` closure (main.rs:283),
together with the catalogue state after `advance` and the enriched `args`. -/
structure HandleResult where
  agent_id : Nat
  agent_xml : XmlElement
  command_idx : Nat
  command_xml : XmlElement
  command_list : CommandList
  args : Args

/-- The `handle_command_and_agent` closure (main.rs:283-307): advance the
catalogue under the event's `metadata_category` as filter, fetch the resolved
command, parse its `AGENT_ID` field, fetch that agent, and record
`command_idx`/`command_xml`/`agent_id`/`agent_xml` into `args`. -/
def handle_command_and_agent (agents : List Agent) (metadata_category : String)
    (args : Args) (command_list : CommandList) (command_name : String) :
    Except ConvError HandleResult :=
  match command_list.advance metadata_category command_name with
  | .error e => .error e
  | .ok (command_idx, cl') =>
      match cl'.commands.get? command_idx with
      | none => .error .indexOutOfBounds
      | some command_xml =>
          match lookupKV command_xml.child_element_values "AGENT_ID" with
          | none => .error .missingField
          | some aidStr =>
              match parseNat? aidStr with
              | none => .error .missingField
              | some agent_id =>
                  match agents.get? agent_id with
                  | none => .error .indexOutOfBounds
                  | some agent =>
                      .ok { agent_id := agent_id, agent_xml := agent.xml,
                            command_idx := command_idx, command_xml := command_xml,
                            command_list := cl',
                            args := { args with
                              command_idx := some command_idx,
                              command_xml := some command_xml.text_representation,
                              agent_id := some agent_id,
                              agent_xml := some agent.xml.text_representation } }

/-- The initial `args` of a classified event (main.rs:279-281): the entry
itself under the key `entry`. -/
def entryArgs (entry : Entry) : Args :=
  { Args.empty with entry := some entry }

/-- The classification result of one Start/Instant event: the display tuple
of `process_timeline_event_start_or_instant` plus the catalogue/bank state
after its side effects. -/
structure ClassifierOutput where
  process_name : String
  thread_name : String
  event_name : String
  args : Args
  color : String
  dma_rd_commands : CommandList
  dma_wr_commands : CommandList
  mce_commands : CommandList
  ple_commands : CommandList
  mce_bank : Nat

/-- The `FirmwareInference` arm (main.rs:310-316). -/
def classifyFirmwareInference (entry : Entry) (agents : List Agent)
    (dma_rd_commands dma_wr_commands mce_commands ple_commands : CommandList)
    (mce_bank : Nat) : Except ConvError ClassifierOutput :=
  .ok { process_name := "b) Command Stream", thread_name := "a) Inference",
        event_name := "Inference", args := entryArgs entry, color := "",
        dma_rd_commands := dma_rd_commands, dma_wr_commands := dma_wr_commands,
        mce_commands := mce_commands, ple_commands := ple_commands,
        mce_bank := mce_bank }

/-- The `FirmwareUpdateProgress` arm (main.rs:317-323). -/
def classifyFirmwareUpdateProgress (entry : Entry) (agents : List Agent)
    (dma_rd_commands dma_wr_commands mce_commands ple_commands : CommandList)
    (mce_bank : Nat) : Except ConvError ClassifierOutput :=
  .ok { process_name := "c) NCU MCU", thread_name := "a) Events",
        event_name := "UpdateProgress", args := entryArgs entry, color := "",
        dma_rd_commands := dma_rd_commands, dma_wr_commands := dma_wr_commands,
        mce_commands := mce_commands, ple_commands := ple_commands,
        mce_bank := mce_bank }

/-- The `FirmwareWfe` arm (main.rs:324-330). -/
def classifyFirmwareWfe (entry : Entry) (agents : List Agent)
    (dma_rd_commands dma_wr_commands mce_commands ple_commands : CommandList)
    (mce_bank : Nat) : Except ConvError ClassifierOutput :=
  .ok { process_name := "c) NCU MCU", thread_name := "a) Events",
        event_name := "WFE", args := entryArgs entry, color := "",
        dma_rd_commands := dma_rd_commands, dma_wr_commands := dma_wr_commands,
        mce_commands := mce_commands, ple_commands := ple_commands,
        mce_bank := mce_bank }

/-- The `FirmwareDmaReadSetup` arm (main.rs:331-343). -/
def classifyFirmwareDmaReadSetup (entry : Entry) (agents : List Agent)
    (dma_rd_commands dma_wr_commands mce_commands ple_commands : CommandList)
    (mce_bank : Nat) : Except ConvError ClassifierOutput :=
  match handle_command_and_agent agents entry.metadata_category (entryArgs entry)
      dma_rd_commands "DMA_COMMAND" with
  | .error e => .error e
  | .ok h =>
      .ok { process_name := "c) NCU MCU", thread_name := "d) DMA stripe setup",
            event_name := h.agent_xml.name,
            args := { h.args with agent_type := some h.agent_xml.name },
            color := COLORS.getD (h.agent_id % COLORS.length) "",
            dma_rd_commands := h.command_list, dma_wr_commands := dma_wr_commands,
            mce_commands := mce_commands, ple_commands := ple_commands,
            mce_bank := mce_bank }

/-- The `FirmwareDmaRead` arm (main.rs:344-365). -/
def classifyFirmwareDmaRead (entry : Entry) (agents : List Agent)
    (dma_rd_commands dma_wr_commands mce_commands ple_commands : CommandList)
    (mce_bank : Nat) : Except ConvError ClassifierOutput :=
  match handle_command_and_agent agents entry.metadata_category (entryArgs entry)
      dma_rd_commands "DMA_COMMAND" with
  | .error e => .error e
  | .ok h =>
      match lookupKV h.command_xml.child_element_values "DMA_CMD" with
      | none => .error .missingField
      | some dmaCmd =>
          match parseDmaHardwareId dmaCmd with
          | .error e => .error e
          | .ok hardware_id =>
              .ok { process_name := "d) DMA",
                    thread_name := "a) DMA Load " ++ toString hardware_id,
                    event_name := h.agent_xml.name,
                    args := { h.args with agent_type := some h.agent_xml.name, hardware_id := some hardware_id },
                    color := COLORS.getD (h.agent_id % COLORS.length) "",
                    dma_rd_commands := h.command_list,
                    dma_wr_commands := dma_wr_commands,
                    mce_commands := mce_commands, ple_commands := ple_commands,
                    mce_bank := mce_bank }

/-- The `FirmwareDmaWriteSetup` arm (main.rs:366-375). -/
def classifyFirmwareDmaWriteSetup (entry : Entry) (agents : List Agent)
    (dma_rd_commands dma_wr_commands mce_commands ple_commands : CommandList)
    (mce_bank : Nat) : Except ConvError ClassifierOutput :=
  match handle_command_and_agent agents entry.metadata_category (entryArgs entry)
      dma_wr_commands "DMA_COMMAND" with
  | .error e => .error e
  | .ok h =>
      .ok { process_name := "c) NCU MCU", thread_name := "d) DMA stripe setup",
            event_name := "OFM_STREAMER", args := h.args,
            color := COLORS.getD (h.agent_id % COLORS.length) "",
            dma_rd_commands := dma_rd_commands, dma_wr_commands := h.command_list,
            mce_commands := mce_commands, ple_commands := ple_commands,
            mce_bank := mce_bank }

/-- The `FirmwareDmaWrite` arm (main.rs:376-394). -/
def classifyFirmwareDmaWrite (entry : Entry) (agents : List Agent)
    (dma_rd_commands dma_wr_commands mce_commands ple_commands : CommandList)
    (mce_bank : Nat) : Except ConvError ClassifierOutput :=
  match handle_command_and_agent agents entry.metadata_category (entryArgs entry)
      dma_wr_commands "DMA_COMMAND" with
  | .error e => .error e
  | .ok h =>
      match lookupKV h.command_xml.child_element_values "DMA_CMD" with
      | none => .error .missingField
      | some dmaCmd =>
          match parseDmaHardwareId dmaCmd with
          | .error e => .error e
          | .ok hardware_id =>
              .ok { process_name := "d) DMA",
                    thread_name := "a) DMA Save " ++ toString hardware_id,
                    event_name := "OFM_STREAMER",
                    args := { h.args with hardware_id := some hardware_id },
                    color := COLORS.getD (h.agent_id % COLORS.length) "",
                    dma_rd_commands := dma_rd_commands,
                    dma_wr_commands := h.command_list,
                    mce_commands := mce_commands, ple_commands := ple_commands,
                    mce_bank := mce_bank }

/-- The `FirmwareMceStripeSetup` arm (main.rs:395-405). -/
def classifyFirmwareMceStripeSetup (entry : Entry) (agents : List Agent)
    (dma_rd_commands dma_wr_commands mce_commands ple_commands : CommandList)
    (mce_bank : Nat) : Except ConvError ClassifierOutput :=
  match handle_command_and_agent agents entry.metadata_category (entryArgs entry)
      mce_commands "PROGRAM_MCE_STRIPE_COMMAND" with
  | .error e => .error e
  | .ok h =>
      .ok { process_name := "c) NCU MCU", thread_name := "c) MCE stripe setup",
            event_name := "MCE stripe setup", args := h.args,
            color := COLORS.getD (h.agent_id % COLORS.length) "",
            dma_rd_commands := dma_rd_commands, dma_wr_commands := dma_wr_commands,
            mce_commands := h.command_list, ple_commands := ple_commands,
            mce_bank := mce_bank }

/-- The `FirmwareMceStripe` arm (main.rs:406-419): flips the 2-valued bank
counter (`*mce_bank = (*mce_bank + 1) % 2`) and shows the new bank value in
the row name; the operation is the agent element's `MCE_OP_MODE` field. -/
def classifyFirmwareMceStripe (entry : Entry) (agents : List Agent)
    (dma_rd_commands dma_wr_commands mce_commands ple_commands : CommandList)
    (mce_bank : Nat) : Except ConvError ClassifierOutput :=
  match handle_command_and_agent agents entry.metadata_category (entryArgs entry)
      mce_commands "START_MCE_STRIPE_COMMAND" with
  | .error e => .error e
  | .ok h =>
      match lookupKV h.agent_xml.child_element_values "MCE_OP_MODE" with
      | none => .error .missingField
      | some operation =>
          .ok { process_name := "f) MCE",
                thread_name := "a) MCE bank " ++ toString ((mce_bank + 1) % 2),
                event_name := operation, args := h.args,
                color := COLORS.getD (h.agent_id % COLORS.length) "",
                dma_rd_commands := dma_rd_commands,
                dma_wr_commands := dma_wr_commands,
                mce_commands := h.command_list, ple_commands := ple_commands,
                mce_bank := (mce_bank + 1) % 2 }

/-- The `FirmwarePleStripeSetup` arm (main.rs:420-430). -/
def classifyFirmwarePleStripeSetup (entry : Entry) (agents : List Agent)
    (dma_rd_commands dma_wr_commands mce_commands ple_commands : CommandList)
    (mce_bank : Nat) : Except ConvError ClassifierOutput :=
  match handle_command_and_agent agents entry.metadata_category (entryArgs entry)
      ple_commands "START_PLE_STRIPE_COMMAND" with
  | .error e => .error e
  | .ok h =>
      .ok { process_name := "c) NCU MCU", thread_name := "c) PLE stripe setup",
            event_name := "PLE stripe setup", args := h.args,
            color := COLORS.getD (h.agent_id % COLORS.length) "",
            dma_rd_commands := dma_rd_commands, dma_wr_commands := dma_wr_commands,
            mce_commands := mce_commands, ple_commands := h.command_list,
            mce_bank := mce_bank }

/-- The `FirmwarePleStripe` arm (main.rs:431-443): the label is the agent
element's `PLE_KERNEL_ID` field. -/
def classifyFirmwarePleStripe (entry : Entry) (agents : List Agent)
    (dma_rd_commands dma_wr_commands mce_commands ple_commands : CommandList)
    (mce_bank : Nat) : Except ConvError ClassifierOutput :=
  match handle_command_and_agent agents entry.metadata_category (entryArgs entry)
      ple_commands "START_PLE_STRIPE_COMMAND" with
  | .error e => .error e
  | .ok h =>
      match lookupKV h.agent_xml.child_element_values "PLE_KERNEL_ID" with
      | none => .error .missingField
      | some ple_kernel_id =>
          .ok { process_name := "g) PLE", thread_name := "a) PLE",
                event_name := ple_kernel_id, args := h.args,
                color := COLORS.getD (h.agent_id % COLORS.length) "",
                dma_rd_commands := dma_rd_commands,
                dma_wr_commands := dma_wr_commands,
                mce_commands := mce_commands, ple_commands := h.command_list,
                mce_bank := mce_bank }

/-- The `FirmwareUdma` arm (main.rs:444-454). -/
def classifyFirmwareUdma (entry : Entry) (agents : List Agent)
    (dma_rd_commands dma_wr_commands mce_commands ple_commands : CommandList)
    (mce_bank : Nat) : Except ConvError ClassifierOutput :=
  match handle_command_and_agent agents entry.metadata_category (entryArgs entry)
      ple_commands "LOAD_PLE_CODE_INTO_PLE_SRAM_COMMAND" with
  | .error e => .error e
  | .ok h =>
      .ok { process_name := "e) UDMA", thread_name := "a) UDMA",
            event_name := "UDMA", args := h.args,
            color := COLORS.getD (h.agent_id % COLORS.length) "",
            dma_rd_commands := dma_rd_commands, dma_wr_commands := dma_wr_commands,
            mce_commands := mce_commands, ple_commands := h.command_list,
            mce_bank := mce_bank }

/-- The `FirmwareLabel` arm (main.rs:455-465). -/
def classifyFirmwareLabel (entry : Entry) (agents : List Agent)
    (dma_rd_commands dma_wr_commands mce_commands ple_commands : CommandList)
    (mce_bank : Nat) : Except ConvError ClassifierOutput :=
  .ok { process_name := "c) NCU MCU", thread_name := "g) LABELS",
        event_name := entry.metadata_label,
        args := { entryArgs entry with label := some entry.metadata_label },
        color := COLORS.getD 0 "",
        dma_rd_commands := dma_rd_commands, dma_wr_commands := dma_wr_commands,
        mce_commands := mce_commands, ple_commands := ple_commands,
        mce_bank := mce_bank }

/-- The `InferenceLifetime` arm (main.rs:466-472). -/
def classifyInferenceLifetime (entry : Entry) (agents : List Agent)
    (dma_rd_commands dma_wr_commands mce_commands ple_commands : CommandList)
    (mce_bank : Nat) : Except ConvError ClassifierOutput :=
  .ok { process_name := "a) Driver Library", thread_name := "a) Inference",
        event_name := "Inference", args := entryArgs entry, color := "",
        dma_rd_commands := dma_rd_commands, dma_wr_commands := dma_wr_commands,
        mce_commands := mce_commands, ple_commands := ple_commands,
        mce_bank := mce_bank }

/-- The `BufferLifetime` arm (main.rs:473-479). -/
def classifyBufferLifetime (entry : Entry) (agents : List Agent)
    (dma_rd_commands dma_wr_commands mce_commands ple_commands : CommandList)
    (mce_bank : Nat) : Except ConvError ClassifierOutput :=
  .ok { process_name := "a) Driver Library",
        thread_name := "b) Buffer " ++ toString entry.id,
        event_name := "Buffer " ++ toString entry.id, args := entryArgs entry,
        color := "",
        dma_rd_commands := dma_rd_commands, dma_wr_commands := dma_wr_commands,
        mce_commands := mce_commands, ple_commands := ple_commands,
        mce_bank := mce_bank }

/-- `process_timeline_event_start_or_instant` (main.rs:264-484): dispatch on
`metadata_category` (the Rust `match` on the category string is an
if-else-if chain over the per-arm definitions above); an unrecognized
category is the `panic!` at main.rs:481. -/
def process_timeline_event_start_or_instant (entry : Entry) (agents : List Agent)
    (dma_rd_commands dma_wr_commands mce_commands ple_commands : CommandList)
    (mce_bank : Nat) : Except ConvError ClassifierOutput :=
  if entry.metadata_category = "FirmwareInference" then
    classifyFirmwareInference entry agents dma_rd_commands dma_wr_commands mce_commands ple_commands mce_bank
  else if entry.metadata_category = "FirmwareUpdateProgress" then
    classifyFirmwareUpdateProgress entry agents dma_rd_commands dma_wr_commands mce_commands ple_commands mce_bank
  else if entry.metadata_category = "FirmwareWfe" then
    classifyFirmwareWfe entry agents dma_rd_commands dma_wr_commands mce_commands ple_commands mce_bank
  else if entry.metadata_category = "FirmwareDmaReadSetup" then
    classifyFirmwareDmaReadSetup entry agents dma_rd_commands dma_wr_commands mce_commands ple_commands mce_bank
  else if entry.metadata_category = "FirmwareDmaRead" then
    classifyFirmwareDmaRead entry agents dma_rd_commands dma_wr_commands mce_commands ple_commands mce_bank
  else if entry.metadata_category = "FirmwareDmaWriteSetup" then
    classifyFirmwareDmaWriteSetup entry agents dma_rd_commands dma_wr_commands mce_commands ple_commands mce_bank
  else if entry.metadata_category = "FirmwareDmaWrite" then
    classifyFirmwareDmaWrite entry agents dma_rd_commands dma_wr_commands mce_commands ple_commands mce_bank
  else if entry.metadata_category = "FirmwareMceStripeSetup" then
    classifyFirmwareMceStripeSetup entry agents dma_rd_commands dma_wr_commands mce_commands ple_commands mce_bank
  else if entry.metadata_category = "FirmwareMceStripe" then
    classifyFirmwareMceStripe entry agents dma_rd_commands dma_wr_commands mce_commands ple_commands mce_bank
  else if entry.metadata_category = "FirmwarePleStripeSetup" then
    classifyFirmwarePleStripeSetup entry agents dma_rd_commands dma_wr_commands mce_commands ple_commands mce_bank
  else if entry.metadata_category = "FirmwarePleStripe" then
    classifyFirmwarePleStripe entry agents dma_rd_commands dma_wr_commands mce_commands ple_commands mce_bank
  else if entry.metadata_category = "FirmwareUdma" then
    classifyFirmwareUdma entry agents dma_rd_commands dma_wr_commands mce_commands ple_commands mce_bank
  else if entry.metadata_category = "FirmwareLabel" then
    classifyFirmwareLabel entry agents dma_rd_commands dma_wr_commands mce_commands ple_commands mce_bank
  else if entry.metadata_category = "InferenceLifetime" then
    classifyInferenceLifetime entry agents dma_rd_commands dma_wr_commands mce_commands ple_commands mce_bank
  else if entry.metadata_category = "BufferLifetime" then
    classifyBufferLifetime entry agents dma_rd_commands dma_wr_commands mce_commands ple_commands mce_bank
  else .error .unknownEventCategory

/-- `process_counter_entry` (main.rs:492-514). -/
def process_counter_entry (entry : Entry) : String × String × String × Args × String :=
  ("z) Counters", "<unused>", entry.counter_name,
    { Args.empty with counter_name := some entry.counter_name,
                      counter_value := some entry.counter_value }, "")

/-- The mutable state threaded through the main pass of `process_json`
(main.rs:808-817): output bookkeeping maps, the in-progress-events table
(`HashMap<u64, (u64, u64, Option<usize>)>`), the agents, the four catalogues
and the MCE bank counter. -/
structure ProcState where
  in_progress_events : List (Nat × (Nat × Nat × Option Nat))
  process_names : List (Nat × String)
  thread_names : List ((Nat × Nat) × String)
  agents : List Agent
  dma_rd_commands : CommandList
  dma_wr_commands : CommandList
  mce_commands : CommandList
  ple_commands : CommandList
  mce_bank : Nat

/-- The display data of one non-End entry: the `(ph, process_name,
thread_name, name, args, color)` tuple computed at main.rs:728-759 together
with the catalogue/bank state after classification. -/
structure EntryDisplay where
  ph : String
  process_name : String
  thread_name : String
  event_name : String
  args : Args
  color : String
  dma_rd_commands : CommandList
  dma_wr_commands : CommandList
  mce_commands : CommandList
  ple_commands : CommandList
  mce_bank : Nat

/-- The dispatch on `entry_type` for non-End entries (main.rs:728-759):
`TimelineEventStart` -> phase "B", `TimelineEventInstant` -> phase "I" (both
through `process_timeline_event_start_or_instant`), `CounterSample` -> phase
"C" through `process_counter_entry`; any other type is the `panic!` at
main.rs:758. -/
def classify_entry (entry : Entry) (s : ProcState) : Except ConvError EntryDisplay :=
  if entry.entry_type = "TimelineEventStart" ∨ entry.entry_type = "TimelineEventInstant" then
    match process_timeline_event_start_or_instant entry s.agents s.dma_rd_commands
        s.dma_wr_commands s.mce_commands s.ple_commands s.mce_bank with
    | .error e => .error e
    | .ok co =>
        .ok { ph := if entry.entry_type = "TimelineEventStart" then "B" else "I",
              process_name := co.process_name, thread_name := co.thread_name,
              event_name := co.event_name, args := co.args, color := co.color,
              dma_rd_commands := co.dma_rd_commands,
              dma_wr_commands := co.dma_wr_commands,
              mce_commands := co.mce_commands, ple_commands := co.ple_commands,
              mce_bank := co.mce_bank }
  else if entry.entry_type = "CounterSample" then
    match process_counter_entry entry with
    | (process_name, thread_name, event_name, args, color) =>
        .ok { ph := "C", process_name := process_name, thread_name := thread_name,
              event_name := event_name, args := args, color := color,
              dma_rd_commands := s.dma_rd_commands,
              dma_wr_commands := s.dma_wr_commands,
              mce_commands := s.mce_commands, ple_commands := s.ple_commands,
              mce_bank := s.mce_bank }
  else .error .unknownEntryType

/-- `process_entry` (main.rs:686-797).  `chrome_ts = timestamp` (deliberately
no nanosecond-to-microsecond conversion, main.rs:700-704).

* `TimelineEventEnd` (main.rs:706-726): look the id up in the in-progress
  table (`unwrap` panics — `unmatchedEndEvent` — when absent), raise the
  recorded agent's `end_timestamp` to `max(current.unwrap_or(0), timestamp)`,
  and emit an `{ph: "E", ts, pid, tid}` record.  The table entry is *not*
  removed.
* otherwise classify, hash the process/thread display names into `pid`/`tid`,
  record the name mappings, emit the full record, and — for
  `TimelineEventStart` only — set the resolved agent's `start_timestamp` if it
  is still unset and insert `(id -> (pid, tid, agent_id?))` into the
  in-progress table. -/
def endRecordOf (chrome_ts pid tid : Nat) : Record :=
  { name := none, ph := "E", ts := some chrome_ts, pid := some pid,
    tid := some tid, args := none, cname := none }

/-- The agent-lifetime update of the End branch (main.rs:713-718). -/
def bumpEnd (ag : Agent) (timestamp : Nat) : Agent :=
  { ag with end_timestamp := some (Nat.max (ag.end_timestamp.getD 0) timestamp) }

/-- The agent-lifetime update of the Start branch (main.rs:787-789). -/
def setStart (ag : Agent) (timestamp : Nat) : Agent :=
  { ag with start_timestamp := some timestamp }

/-- The output record of a classified (non-End) entry (main.rs:772-780),
with `pid`/`tid` the hashes of the display names. -/
def mkResultRecord (entry : Entry) (d : EntryDisplay) : Record :=
  { name := some d.event_name, ph := d.ph, ts := some entry.timestamp,
    pid := some (hash_string d.process_name), tid := some (hash_string d.thread_name),
    args := some d.args, cname := some d.color }

/-- Commit a classified entry's side effects to the state: record the
process/thread name mappings (main.rs:761-769) and the catalogue/bank state
after classification.  Leaves `agents` and `in_progress_events` unchanged. -/
def applyDisplay (s : ProcState) (d : EntryDisplay) : ProcState :=
  { s with
    process_names := insertKV s.process_names (hash_string d.process_name) d.process_name,
    thread_names :=
      insertKV s.thread_names (hash_string d.process_name, hash_string d.thread_name)
        d.thread_name,
    dma_rd_commands := d.dma_rd_commands,
    dma_wr_commands := d.dma_wr_commands,
    mce_commands := d.mce_commands, ple_commands := d.ple_commands,
    mce_bank := d.mce_bank }

def process_entry (entry : Entry) (s : ProcState) : Except ConvError (Record × ProcState) :=
  if entry.entry_type = "TimelineEventEnd" then
    match lookupKV s.in_progress_events entry.id with
    | none => .error .unmatchedEndEvent
    | some (pid, tid, agent_id) =>
        match agent_id with
        | none => .ok (endRecordOf entry.timestamp pid tid, s)
        | some a =>
            match s.agents.get? a with
            | none => .error .indexOutOfBounds
            | some ag =>
                .ok (endRecordOf entry.timestamp pid tid,
                  { s with agents := s.agents.set a (bumpEnd ag entry.timestamp) })
  else
    match classify_entry entry s with
    | .error e => .error e
    | .ok d =>
        if entry.entry_type = "TimelineEventStart" then
          match d.args.agent_id with
          | some a =>
              match s.agents.get? a with
              | none => .error .indexOutOfBounds
              | some ag =>
                  .ok (mkResultRecord entry d,
                    { applyDisplay s d with
                      agents :=
                        if ag.start_timestamp = none then
                          s.agents.set a (setStart ag entry.timestamp)
                        else s.agents,
                      in_progress_events :=
                        insertKV s.in_progress_events entry.id
                          (hash_string d.process_name, hash_string d.thread_name, some a) })
          | none =>
              .ok (mkResultRecord entry d,
                { applyDisplay s d with
                  in_progress_events :=
                    insertKV s.in_progress_events entry.id
                      (hash_string d.process_name, hash_string d.thread_name, none) })
        else .ok (mkResultRecord entry d, applyDisplay s d)

/-- The main loop of `process_json` (main.rs:820-836): fold `process_entry`
over the entries, collecting one output record per entry. -/
def processEntries : List Entry → ProcState → Except ConvError (List Record × ProcState)
  | [], s => .ok ([], s)
  | e :: rest, s =>
      match process_entry e s with
      | .error err => .error err
      | .ok (r, s1) =>
          match processEntries rest s1 with
          | .error err => .error err
          | .ok (rs, s2) => .ok (r :: rs, s2)

/-- The initial state of `process_json` (main.rs:808-817): empty maps and
table, `mce_bank = 1`. -/
def initProcState (agents : List Agent)
    (dma_rd_commands dma_wr_commands mce_commands ple_commands : CommandList) :
    ProcState :=
  { in_progress_events := [], process_names := [], thread_names := [],
    agents := agents, dma_rd_commands := dma_rd_commands,
    dma_wr_commands := dma_wr_commands, mce_commands := mce_commands,
    ple_commands := ple_commands, mce_bank := 1 }

/-- Zero-padded fixed-width-4 decimal formatting (`format!("{:04}", n)`),
used for agent thread names so lexicographic and numeric order coincide. -/
def pad4 (n : Nat) : String :=
  let s := toString n
  String.mk (List.replicate (4 - s.length) '0') ++ s

/-- Error-propagating list map (the effect of mapping a fallible body over a
list, failing at the first failure). -/
def mapME {α β : Type} (f : α → Except ConvError β) : List α → Except ConvError (List β)
  | [] => .ok []
  | a :: l =>
      match f a with
      | .error e => .error e
      | .ok b =>
          match mapME f l with
          | .error e => .error e
          | .ok bs => .ok (b :: bs)

/-- The agent-span loop of `process_finalize` (main.rs:551-576): for each
agent whose `start_timestamp` is set, record its thread name and append a
Begin/End record pair; `agent.end_timestamp.unwrap()` (main.rs:574) panics —
`agentEndUnset` — when the end timestamp was never set. -/
def finalizeAgentSpans (pid : Nat) (agentsEnum : List (Nat × Agent))
    (data : List Record) (thread_names : List ((Nat × Nat) × String)) :
    Except ConvError (List Record × List ((Nat × Nat) × String)) :=
  match agentsEnum with
  | [] => .ok (data, thread_names)
  | (agent_idx, agent) :: rest =>
      match agent.start_timestamp with
      | none => finalizeAgentSpans pid rest data thread_names
      | some st =>
          let thread_name := "b) Agent " ++ pad4 agent_idx ++ " (" ++ agent.xml.name ++ ")"
          let tid := hash_string thread_name
          let thread_names' := insertKV thread_names (pid, tid) thread_name
          let begin_event : Record :=
            { name := some ("Agent " ++ toString agent_idx ++ " (" ++ agent.xml.name ++ ")"),
              ph := "B", ts := some st, pid := some pid, tid := some tid,
              args := some { Args.empty with agent_xml := some agent.xml.text_representation },
              cname := none }
          match agent.end_timestamp with
          | none => .error .agentEndUnset
          | some et =>
              finalizeAgentSpans pid rest
                (data ++ [begin_event, { begin_event with ph := "E", ts := some et }])
                thread_names'

/-- One step of the validation loop of `process_finalize` (main.rs:587-618):
key every record by `(pid, tid)` (unwraps — all main-pass records carry
both); a repeated Begin for an open key is a printed warning and the first
Begin is kept; an End for an open key whose timestamp is before the Begin's
is the fatal panic at main.rs:607 (`invertedDuration`), otherwise the Begin
is discharged; an End with no open Begin is a printed warning. -/
def validateStep (begin_events : List ((Nat × Nat) × Record)) (entry : Record) :
    Except ConvError (List ((Nat × Nat) × Record)) :=
  match entry.pid, entry.tid with
  | some pid, some tid =>
      if entry.ph = "B" then
        if (lookupKV begin_events (pid, tid)).isSome then .ok begin_events
        else .ok (insertKV begin_events (pid, tid) entry)
      else if entry.ph = "E" then
        match lookupKV begin_events (pid, tid) with
        | some b =>
            match entry.ts, b.ts with
            | some te, some tb =>
                if te < tb then .error .invertedDuration
                else .ok (eraseKV begin_events (pid, tid))
            | _, _ => .error .missingField
        | none => .ok begin_events
      else .ok begin_events
  | _, _ => .error .missingField

/-- The validation loop over the whole record list, returning the map of
Begin records that never found an End. -/
def validateLoop (data : List Record) (begin_events : List ((Nat × Nat) × Record)) :
    Except ConvError (List ((Nat × Nat) × Record)) :=
  match data with
  | [] => .ok begin_events
  | r :: rest =>
      match validateStep begin_events r with
      | .error e => .error e
      | .ok b' => validateLoop rest b'

/-- The `ts` unwrap of the `max_timestamp` computation (main.rs:582-585). -/
def recordTs (r : Record) : Except ConvError Nat :=
  match r.ts with
  | some t => .ok t
  | none => .error .missingField

/-- The body of the fake-End loop (main.rs:619-626) for one never-ended Begin:
rename the *map's copy* of the Begin record with the " (NOT ENDED)" suffix and
derive from that copy an End record at `max_timestamp` (an `Option` —
`Value::Null` if the data was empty — assigned directly to `ts`, matching
`end_event["ts"] = max_timestamp.into()`).  Only the derived End record is
pushed into the output; the Begin record already in `data` is *not* renamed
(the source mutates a `clone`). -/
def notEndedEnd (max_timestamp : Option Nat) (kb : (Nat × Nat) × Record) :
    Except ConvError Record :=
  match kb.2.name with
  | none => .error .missingField
  | some n =>
      .ok { kb.2 with name := some (n ++ " (NOT ENDED)"), ph := "E", ts := max_timestamp }

/-- The process-metadata record (main.rs:670-672). -/
def processMeta (p : Nat × String) : Record :=
  { name := some "process_name", ph := "M", ts := none, pid := some p.1,
    tid := none, args := some { Args.empty with name := some p.2 }, cname := none }

/-- The thread-metadata record (main.rs:677-679). -/
def threadMeta (p : (Nat × Nat) × String) : Record :=
  { name := some "thread_name", ph := "M", ts := none, pid := some p.1.1,
    tid := some p.1.2, args := some { Args.empty with name := some p.2 },
    cname := none }

/-- `process_finalize` (main.rs:540-684).  The three `HashMap` iterations of
the source (over the remaining `begin_events`, over `process_names` and over
`thread_names`) have unspecified, per-process iteration order in Rust; they
are modelled by the reordering parameters `orderB`/`orderP`/`orderT` applied
to the canonical association lists. -/
def process_finalize (data : List Record) (agents : List Agent)
    (process_names : List (Nat × String))
    (thread_names : List ((Nat × Nat) × String))
    (add_timeline_bars : Bool)
    (orderB : List ((Nat × Nat) × Record) → List ((Nat × Nat) × Record))
    (orderP : List (Nat × String) → List (Nat × String))
    (orderT : List ((Nat × Nat) × String) → List ((Nat × Nat) × String)) :
    Except ConvError (List Record) :=
  match finalizeAgentSpans (hash_string "b) Command Stream") agents.enum data thread_names with
  | .error e => .error e
  | .ok (data1, thread_names') =>
      match mapME recordTs data1 with
      | .error e => .error e
      | .ok tss =>
          match validateLoop data1 [] with
          | .error e => .error e
          | .ok begin_events =>
              match mapME (notEndedEnd tss.max?) (orderB begin_events) with
              | .error e => .error e
              | .ok ends =>
                  if add_timeline_bars then .error .addTimelineBarsUnimplemented
                  else
                    .ok (data1 ++ ends
                      ++ (orderP (insertKV process_names
                            (hash_string "b) Command Stream") "b) Command Stream")).map processMeta
                      ++ (orderT thread_names').map threadMeta)

/-- `process_json` (main.rs:799-845): run the main pass from the initial
state (`mce_bank = 1`), then finalize. -/
def process_json (entries : List Entry) (agents : List Agent)
    (dma_rd_commands dma_wr_commands mce_commands ple_commands : CommandList)
    (add_timeline_bars : Bool)
    (orderB : List ((Nat × Nat) × Record) → List ((Nat × Nat) × Record))
    (orderP : List (Nat × String) → List (Nat × String))
    (orderT : List ((Nat × Nat) × String) → List ((Nat × Nat) × String)) :
    Except ConvError (List Record) :=
  match processEntries entries
      (initProcState agents dma_rd_commands dma_wr_commands mce_commands
        ple_commands) with
  | .error e => .error e
  | .ok (result, s) =>
      process_finalize result s.agents s.process_names s.thread_names
        add_timeline_bars orderB orderP orderT

/-- Characterization of the classifier's bank behaviour: only the
`FirmwareMceStripe` arm changes `mce_bank` (to `(bank + 1) % 2`, which it also
displays in the row name); every other arm leaves the bank unchanged. -/
theorem classifier_bank_char (e : Entry) (agents : List Agent)
    (rd wr mce ple : CommandList) (bank : Nat) (co : ClassifierOutput)
    (h : process_timeline_event_start_or_instant e agents rd wr mce ple bank = .ok co) :
    (e.metadata_category = "FirmwareMceStripe" →
      co.mce_bank = (bank + 1) % 2 ∧
      co.thread_name = "a) MCE bank " ++ toString ((bank + 1) % 2))
    ∧ (e.metadata_category ≠ "FirmwareMceStripe" → co.mce_bank = bank) := by
  unfold process_timeline_event_start_or_instant at h
  by_cases h1 : e.metadata_category = "FirmwareInference"
  · rw [if_pos h1] at h
    unfold classifyFirmwareInference at h
    cases h
    exact ⟨fun hc => absurd (h1.symm.trans hc) (by decide), fun _ => rfl⟩
  · rw [if_neg h1] at h
    by_cases h2 : e.metadata_category = "FirmwareUpdateProgress"
    · rw [if_pos h2] at h
      unfold classifyFirmwareUpdateProgress at h
      cases h
      exact ⟨fun hc => absurd (h2.symm.trans hc) (by decide), fun _ => rfl⟩
    · rw [if_neg h2] at h
      by_cases h3 : e.metadata_category = "FirmwareWfe"
      · rw [if_pos h3] at h
        unfold classifyFirmwareWfe at h
        cases h
        exact ⟨fun hc => absurd (h3.symm.trans hc) (by decide), fun _ => rfl⟩
      · rw [if_neg h3] at h
        by_cases h4 : e.metadata_category = "FirmwareDmaReadSetup"
        · rw [if_pos h4] at h
          unfold classifyFirmwareDmaReadSetup at h
          repeat' split at h
          all_goals cases h
          all_goals exact ⟨fun hc => absurd (h4.symm.trans hc) (by decide), fun _ => rfl⟩
        · rw [if_neg h4] at h
          by_cases h5 : e.metadata_category = "FirmwareDmaRead"
          · rw [if_pos h5] at h
            unfold classifyFirmwareDmaRead at h
            repeat' split at h
            all_goals cases h
            all_goals exact ⟨fun hc => absurd (h5.symm.trans hc) (by decide), fun _ => rfl⟩
          · rw [if_neg h5] at h
            by_cases h6 : e.metadata_category = "FirmwareDmaWriteSetup"
            · rw [if_pos h6] at h
              unfold classifyFirmwareDmaWriteSetup at h
              repeat' split at h
              all_goals cases h
              all_goals exact ⟨fun hc => absurd (h6.symm.trans hc) (by decide), fun _ => rfl⟩
            · rw [if_neg h6] at h
              by_cases h7 : e.metadata_category = "FirmwareDmaWrite"
              · rw [if_pos h7] at h
                unfold classifyFirmwareDmaWrite at h
                repeat' split at h
                all_goals cases h
                all_goals exact ⟨fun hc => absurd (h7.symm.trans hc) (by decide), fun _ => rfl⟩
              · rw [if_neg h7] at h
                by_cases h8 : e.metadata_category = "FirmwareMceStripeSetup"
                · rw [if_pos h8] at h
                  unfold classifyFirmwareMceStripeSetup at h
                  repeat' split at h
                  all_goals cases h
                  all_goals exact ⟨fun hc => absurd (h8.symm.trans hc) (by decide), fun _ => rfl⟩
                · rw [if_neg h8] at h
                  by_cases h9 : e.metadata_category = "FirmwareMceStripe"
                  · rw [if_pos h9] at h
                    unfold classifyFirmwareMceStripe at h
                    repeat' split at h
                    all_goals cases h
                    all_goals exact ⟨fun _ => ⟨rfl, rfl⟩, fun hc => absurd h9 hc⟩
                  · rw [if_neg h9] at h
                    by_cases h10 : e.metadata_category = "FirmwarePleStripeSetup"
                    · rw [if_pos h10] at h
                      unfold classifyFirmwarePleStripeSetup at h
                      repeat' split at h
                      all_goals cases h
                      all_goals exact ⟨fun hc => absurd (h10.symm.trans hc) (by decide), fun _ => rfl⟩
                    · rw [if_neg h10] at h
                      by_cases h11 : e.metadata_category = "FirmwarePleStripe"
                      · rw [if_pos h11] at h
                        unfold classifyFirmwarePleStripe at h
                        repeat' split at h
                        all_goals cases h
                        all_goals exact ⟨fun hc => absurd (h11.symm.trans hc) (by decide), fun _ => rfl⟩
                      · rw [if_neg h11] at h
                        by_cases h12 : e.metadata_category = "FirmwareUdma"
                        · rw [if_pos h12] at h
                          unfold classifyFirmwareUdma at h
                          repeat' split at h
                          all_goals cases h
                          all_goals exact ⟨fun hc => absurd (h12.symm.trans hc) (by decide), fun _ => rfl⟩
                        · rw [if_neg h12] at h
                          by_cases h13 : e.metadata_category = "FirmwareLabel"
                          · rw [if_pos h13] at h
                            unfold classifyFirmwareLabel at h
                            cases h
                            exact ⟨fun hc => absurd (h13.symm.trans hc) (by decide), fun _ => rfl⟩
                          · rw [if_neg h13] at h
                            by_cases h14 : e.metadata_category = "InferenceLifetime"
                            · rw [if_pos h14] at h
                              unfold classifyInferenceLifetime at h
                              cases h
                              exact ⟨fun hc => absurd (h14.symm.trans hc) (by decide), fun _ => rfl⟩
                            · rw [if_neg h14] at h
                              by_cases h15 : e.metadata_category = "BufferLifetime"
                              · rw [if_pos h15] at h
                                unfold classifyBufferLifetime at h
                                cases h
                                exact ⟨fun hc => absurd (h15.symm.trans hc) (by decide), fun _ => rfl⟩
                              · rw [if_neg h15] at h
                                cases h


set_option maxHeartbeats 1000000

theorem process_entry_end_char (entry : Entry) (s : ProcState) (r : Record) (s' : ProcState)
    (hty : entry.entry_type = "TimelineEventEnd")
    (h : process_entry entry s = .ok (r, s')) :
    s'.in_progress_events = s.in_progress_events
    ∧ s'.process_names = s.process_names ∧ s'.thread_names = s.thread_names
    ∧ s'.mce_bank = s.mce_bank
    ∧ ∃ pid tid aid, lookupKV s.in_progress_events entry.id = some (pid, tid, aid)
        ∧ r = endRecordOf entry.timestamp pid tid
        ∧ ((aid = none ∧ s'.agents = s.agents)
           ∨ ∃ a ag, aid = some a ∧ s.agents.get? a = some ag
               ∧ s'.agents = s.agents.set a (bumpEnd ag entry.timestamp)) := by
  unfold process_entry at h
  rw [if_pos hty] at h
  split at h
  · cases h
  · rename_i pid tid aid heq
    split at h
    · cases h
      exact ⟨rfl, rfl, rfl, rfl, pid, tid, none, heq, rfl, Or.inl ⟨rfl, rfl⟩⟩
    · rename_i a
      split at h
      · cases h
      · rename_i ag hag
        cases h
        exact ⟨rfl, rfl, rfl, rfl, pid, tid, some a, heq, rfl,
          Or.inr ⟨a, ag, rfl, hag, rfl⟩⟩


/-- The End branch never raises `unmatchedEndEvent` except when (and always
when) the id has no entry in the in-progress table. -/
theorem process_entry_end_unmatched_iff (entry : Entry) (s : ProcState)
    (hty : entry.entry_type = "TimelineEventEnd") :
    process_entry entry s = .error .unmatchedEndEvent ↔
      lookupKV s.in_progress_events entry.id = none := by
  unfold process_entry
  rw [if_pos hty]
  constructor
  · intro h
    split at h
    · rename_i heq
      exact heq
    · rename_i pid tid aid heq
      split at h
      · cases h
      · rename_i a
        split at h
        · exact absurd (Except.error.inj h) (by decide)
        · cases h
  · intro hlk
    rw [hlk]

/-- Characterization of `process_entry` on entries that are neither Start nor
End: the record is the classified record and the state change is exactly
`applyDisplay` (agents and the in-progress table untouched). -/
theorem process_entry_other_char (entry : Entry) (s : ProcState) (r : Record) (s' : ProcState)
    (hty1 : entry.entry_type ≠ "TimelineEventEnd")
    (hty2 : entry.entry_type ≠ "TimelineEventStart")
    (h : process_entry entry s = .ok (r, s')) :
    ∃ d, classify_entry entry s = .ok d ∧ r = mkResultRecord entry d
      ∧ s' = applyDisplay s d := by
  unfold process_entry at h
  rw [if_neg hty1] at h
  split at h
  · cases h
  · rename_i d hd
    rw [if_neg hty2] at h
    cases h
    exact ⟨d, hd, rfl, rfl⟩

/-- Characterization of `process_entry` on Start entries: the record is the
classified record; the id is inserted into the in-progress table together
with the resolved agent id (when any); the resolved agent's `start_timestamp`
is set to the entry's timestamp only if it was still unset; no other agent
changes. -/
theorem process_entry_start_char (entry : Entry) (s : ProcState) (r : Record) (s' : ProcState)
    (hty : entry.entry_type = "TimelineEventStart")
    (h : process_entry entry s = .ok (r, s')) :
    ∃ d, classify_entry entry s = .ok d ∧ r = mkResultRecord entry d
      ∧ s'.process_names = (applyDisplay s d).process_names
      ∧ s'.thread_names = (applyDisplay s d).thread_names
      ∧ s'.mce_bank = d.mce_bank
      ∧ s'.in_progress_events = insertKV s.in_progress_events entry.id
          (hash_string d.process_name, hash_string d.thread_name, d.args.agent_id)
      ∧ ((d.args.agent_id = none ∧ s'.agents = s.agents)
        ∨ ∃ a ag, d.args.agent_id = some a ∧ s.agents.get? a = some ag ∧
            s'.agents = (if ag.start_timestamp = none then
              s.agents.set a (setStart ag entry.timestamp) else s.agents)) := by
  unfold process_entry at h
  have hne : entry.entry_type ≠ "TimelineEventEnd" := by rw [hty]; decide
  rw [if_neg hne] at h
  split at h
  · cases h
  · rename_i d hd
    rw [if_pos hty] at h
    split at h
    · rename_i a ha
      split at h
      · cases h
      · rename_i ag hag
        cases h
        refine ⟨d, hd, rfl, rfl, rfl, rfl, ?_, Or.inr ⟨a, ag, ha, hag, rfl⟩⟩
        rw [ha]
    · rename_i ha
      cases h
      refine ⟨d, hd, rfl, rfl, rfl, rfl, ?_, Or.inl ⟨ha, rfl⟩⟩
      rw [ha]

/-- A non-End entry is a "stripe event" when it is a Start or Instant of
category `FirmwareMceStripe` — exactly the entries whose classification flips
the bank counter. -/
def isStripeEvent (e : Entry) : Bool :=
  (e.entry_type == "TimelineEventStart" || e.entry_type == "TimelineEventInstant")
    && e.metadata_category == "FirmwareMceStripe"

/-- Characterization of `classify_entry`'s bank behaviour: a stripe event
flips the bank to `(bank + 1) % 2` and shows that value in the thread (row)
name; everything else leaves the bank unchanged. -/
theorem classify_entry_bank_char (entry : Entry) (s : ProcState) (d : EntryDisplay)
    (h : classify_entry entry s = .ok d) :
    (isStripeEvent entry = true →
      d.mce_bank = (s.mce_bank + 1) % 2 ∧
      d.thread_name = "a) MCE bank " ++ toString ((s.mce_bank + 1) % 2))
    ∧ (isStripeEvent entry = false → d.mce_bank = s.mce_bank) := by
  unfold classify_entry at h
  split at h
  · rename_i hsi
    split at h
    · cases h
    · rename_i co hco
      cases h
      have hc := classifier_bank_char entry s.agents s.dma_rd_commands s.dma_wr_commands
        s.mce_commands s.ple_commands s.mce_bank co hco
      constructor
      · intro hstripe
        have hcat : entry.metadata_category = "FirmwareMceStripe" := by
          simp only [isStripeEvent, Bool.and_eq_true, beq_iff_eq] at hstripe
          exact hstripe.2
        exact hc.1 hcat
      · intro hns
        have hcat : entry.metadata_category ≠ "FirmwareMceStripe" := by
          intro hcat
          simp only [isStripeEvent] at hns
          rcases hsi with hst | hin
          · rw [hst, hcat] at hns
            exact absurd hns (by decide)
          · rw [hin, hcat] at hns
            exact absurd hns (by decide)
        exact hc.2 hcat
  · split at h
    · rename_i hns hcs
      split at h
      cases h
      constructor
      · intro hstripe
        simp only [isStripeEvent] at hstripe
        rw [hcs] at hstripe
        simp at hstripe
      · intro _
        rfl
    · cases h

/-- Inversion of one step of the main loop. -/
theorem processEntries_cons_inv (e0 : Entry) (rest : List Entry) (s : ProcState)
    (recs : List Record) (s' : ProcState)
    (h : processEntries (e0 :: rest) s = .ok (recs, s')) :
    ∃ r0 s1 rs, process_entry e0 s = .ok (r0, s1)
      ∧ processEntries rest s1 = .ok (rs, s') ∧ recs = r0 :: rs := by
  unfold processEntries at h
  split at h
  · cases h
  · rename_i r0 s1 h0
    split at h
    · cases h
    · rename_i rs s2 hrest
      cases h
      exact ⟨r0, s1, rs, h0, hrest, rfl⟩

/-- Number of stripe events in a list of entries. -/
def countStripe (l : List Entry) : Nat := (l.filter isStripeEvent).length

theorem countStripe_cons_true (x : Entry) (l : List Entry) (hx : isStripeEvent x = true) :
    countStripe (x :: l) = countStripe l + 1 := by
  simp [countStripe, List.filter_cons, hx]

theorem countStripe_cons_false (x : Entry) (l : List Entry) (hx : isStripeEvent x = false) :
    countStripe (x :: l) = countStripe l := by
  simp [countStripe, List.filter_cons, hx]

/-- Per-step bank behaviour of `process_entry`: a stripe event advances the
bank to `(bank + 1) % 2` and stamps its record's `tid` with the hash of the
row name showing that bank; every other entry leaves the bank unchanged. -/
theorem process_entry_bank (entry : Entry) (s : ProcState) (r : Record) (s' : ProcState)
    (h : process_entry entry s = .ok (r, s')) :
    (isStripeEvent entry = true →
      s'.mce_bank = (s.mce_bank + 1) % 2 ∧
      r.tid = some (hash_string ("a) MCE bank " ++ toString ((s.mce_bank + 1) % 2))))
    ∧ (isStripeEvent entry = false → s'.mce_bank = s.mce_bank) := by
  by_cases hend : entry.entry_type = "TimelineEventEnd"
  · have hns : isStripeEvent entry = false := by
      simp only [isStripeEvent]
      rw [hend]
      simp
    have hc := process_entry_end_char entry s r s' hend h
    exact ⟨fun habs => absurd habs (by rw [hns]; decide), fun _ => hc.2.2.2.1⟩
  · by_cases hstart : entry.entry_type = "TimelineEventStart"
    · rcases process_entry_start_char entry s r s' hstart h with
        ⟨d, hd, hr, _, _, hbank, _, _⟩
      have hcb := classify_entry_bank_char entry s d hd
      constructor
      · intro hstripe
        refine ⟨by rw [hbank]; exact (hcb.1 hstripe).1, ?_⟩
        rw [hr]
        show some (hash_string d.thread_name) = _
        rw [(hcb.1 hstripe).2]
      · intro hns
        rw [hbank]
        exact hcb.2 hns
    · rcases process_entry_other_char entry s r s' hend hstart h with ⟨d, hd, hr, hs'⟩
      have hcb := classify_entry_bank_char entry s d hd
      constructor
      · intro hstripe
        refine ⟨by rw [hs']; exact (hcb.1 hstripe).1, ?_⟩
        rw [hr]
        show some (hash_string d.thread_name) = _
        rw [(hcb.1 hstripe).2]
      · intro hns
        rw [hs']
        exact hcb.2 hns

/-- Run-level bank invariant: in any successful run of the main loop, the
`i`-th output record of a stripe event carries the `tid` of the row name
displaying bank `(bank₀ + countStripe(prefix) + 1) % 2`. -/
theorem processEntries_bank (entries : List Entry) (s : ProcState)
    (recs : List Record) (s' : ProcState)
    (h : processEntries entries s = .ok (recs, s')) :
    ∀ i e r, entries.get? i = some e → isStripeEvent e = true →
      recs.get? i = some r →
      r.tid = some (hash_string ("a) MCE bank " ++
        toString ((s.mce_bank + countStripe (entries.take i) + 1) % 2))) := by
  induction entries generalizing s recs with
  | nil =>
      intro i e r he
      simp at he
  | cons e0 rest ih =>
      intro i e r he hstripe hr
      rcases processEntries_cons_inv e0 rest s recs s' h with ⟨r0, s1, rs, h0, hrest, hrecs⟩
      subst hrecs
      cases i with
      | zero =>
          simp only [List.get?] at he hr
          have hee : e0 = e := Option.some.inj he
          have hrr : r0 = r := Option.some.inj hr
          subst hee
          subst hrr
          have := (process_entry_bank e0 s r0 s1 h0).1 hstripe
          simpa [countStripe] using this.2
      | succ i =>
          simp only [List.get?] at he hr
          have hgoal := ih s1 rs hrest i e r he hstripe hr
          have harith : (s1.mce_bank + countStripe (rest.take i) + 1) % 2 =
              (s.mce_bank + countStripe ((e0 :: rest).take (i + 1)) + 1) % 2 := by
            rw [List.take_succ_cons]
            cases hs0 : isStripeEvent e0 with
            | true =>
                have hb := (process_entry_bank e0 s r0 s1 h0).1 hs0
                rw [hb.1, countStripe_cons_true e0 _ hs0]
                omega
            | false =>
                have hb := (process_entry_bank e0 s r0 s1 h0).2 hs0
                rw [hb, countStripe_cons_false e0 _ hs0]
          rw [hgoal, harith]

/-- C9: across one whole run of the main loop, successive `FirmwareMceStripe`
events (Starts or Instants, in any interleaving with other categories)
receive strictly alternating values of the 2-valued bank counter: with
`n = countStripe(prefix) + 1` the 1-based rank of the stripe event among all
stripe events of the run, its record's row is "a) MCE bank ((n+1) mod 2)" —
in particular the first stripe event gets bank 0 (`mce_bank` starts at 1 and
each stripe event flips it before display).  The bank state is carried across
the entire run and never reset per event. -/
theorem C9_mce_bank_alternates (entries : List Entry) (agents : List Agent)
    (dma_rd_commands dma_wr_commands mce_commands ple_commands : CommandList)
    (recs : List Record) (s' : ProcState)
    (hrun : processEntries entries
      (initProcState agents dma_rd_commands dma_wr_commands mce_commands
        ple_commands) = .ok (recs, s'))
    (i : Nat) (e : Entry) (r : Record)
    (he : entries.get? i = some e) (hstripe : isStripeEvent e = true)
    (hr : recs.get? i = some r) :
    r.tid = some (hash_string ("a) MCE bank " ++
      toString (((countStripe (entries.take i) + 1) + 1) % 2))) := by
  have hb := processEntries_bank entries _ recs s' hrun i e r he hstripe hr
  have hinit : (initProcState agents dma_rd_commands dma_wr_commands mce_commands
      ple_commands).mce_bank = 1 := rfl
  rw [hinit] at hb
  have harith : (1 + countStripe (entries.take i) + 1) % 2 =
      ((countStripe (entries.take i) + 1) + 1) % 2 := by omega
  rw [harith] at hb
  exact hb

/-- A minimal agent/catalogue setup for MCE stripe events. -/
def mceAgent : Agent :=
  { xml := { name := "MCE_SCHEDULER",
             child_element_values := [("MCE_OP_MODE", "CONV")],
             text_representation := "<MCE_SCHEDULER/>" },
    start_timestamp := none, end_timestamp := none }

def mceStartCmd : XmlElement :=
  { name := "START_MCE_STRIPE_COMMAND", child_element_values := [("AGENT_ID", "0")],
    text_representation := "<START_MCE_STRIPE_COMMAND/>" }

def stripeEntry (n : Nat) : Entry :=
  { entry_type := "TimelineEventInstant", timestamp := n, id := n,
    metadata_category := "FirmwareMceStripe", metadata_label := "",
    counter_name := "", counter_value := 0 }

def stripeInit : ProcState :=
  initProcState [mceAgent] CommandList.default CommandList.default
    (CommandList.mk0 [mceStartCmd, mceStartCmd]) CommandList.default


/-- Extract the record list of a successful run (empty on error); used to
state closed, concrete instances of run-level theorems. -/
def recsOf (x : Except ConvError (List Record × ProcState)) : List Record :=
  match x with
  | .ok (recs, _) => recs
  | .error _ => []

/-- Extract the final state of a successful run (a dummy initial state on
error); used to state closed, concrete instances of run-level theorems. -/
def stateOf (x : Except ConvError (List Record × ProcState)) : ProcState :=
  match x with
  | .ok (_, s) => s
  | .error _ =>
      initProcState [] CommandList.default CommandList.default CommandList.default
        CommandList.default

/-- The `i`-th record of a successful run (a dummy record when out of range). -/
def recAt (x : Except ConvError (List Record × ProcState)) (i : Nat) : Record :=
  ((recsOf x).get? i).getD
    { name := none, ph := "", ts := none, pid := none, tid := none, args := none,
      cname := none }

theorem C9_mce_bank_alternates_witness :
    (recAt (processEntries [stripeEntry 1, stripeEntry 2] stripeInit) 1).tid =
      some (hash_string ("a) MCE bank " ++
        toString (((countStripe ([stripeEntry 1, stripeEntry 2].take 1) + 1) + 1) % 2))) :=
  C9_mce_bank_alternates [stripeEntry 1, stripeEntry 2] [mceAgent] CommandList.default
    CommandList.default (CommandList.mk0 [mceStartCmd, mceStartCmd]) CommandList.default
    (recsOf (processEntries [stripeEntry 1, stripeEntry 2] stripeInit))
    (stateOf (processEntries [stripeEntry 1, stripeEntry 2] stripeInit))
    rfl 1 (stripeEntry 2)
    (recAt (processEntries [stripeEntry 1, stripeEntry 2] stripeInit) 1)
    rfl (by decide) rfl

/-- A Start entry of category `FirmwareWfe` (no catalogue involvement). -/
def wfeStartEntry (ts id : Nat) : Entry :=
  { entry_type := "TimelineEventStart", timestamp := ts, id := id,
    metadata_category := "FirmwareWfe", metadata_label := "", counter_name := "",
    counter_value := 0 }

/-- A bare End entry. -/
def endEntry (ts id : Nat) : Entry :=
  { entry_type := "TimelineEventEnd", timestamp := ts, id := id,
    metadata_category := "", metadata_label := "", counter_name := "",
    counter_value := 0 }

/-- A counter sample. -/
def counterEntry : Entry :=
  { entry_type := "CounterSample", timestamp := 3, id := 0,
    metadata_category := "", metadata_label := "", counter_name := "NCU_IDLE",
    counter_value := 42 }

/-- The initial state with no agents and empty catalogues. -/
def emptyInit : ProcState :=
  initProcState [] CommandList.default CommandList.default CommandList.default
    CommandList.default

/-- C3 (counterexample): a Start for id 7 followed by two Ends for id 7.
The claim says the first End consumes and removes the table entry and that
the second End must fail with `UnmatchedEndEvent`; in fact the whole log
processes successfully (three records) and the entry for id 7 is still in
the in-progress table afterwards — `process_entry`'s End branch only reads
the table (main.rs:708-710) and never removes from it. -/
theorem C3_end_does_not_remove_counterexample :
    (processEntries [wfeStartEntry 100 7, endEntry 120 7, endEntry 130 7] emptyInit).isOk
      = true
    ∧ (recsOf (processEntries [wfeStartEntry 100 7, endEntry 120 7, endEntry 130 7]
        emptyInit)).length = 3
    ∧ lookupKV (stateOf (processEntries [wfeStartEntry 100 7, endEntry 120 7,
        endEntry 130 7] emptyInit)).in_progress_events 7 ≠ none := by
  refine ⟨rfl, rfl, ?_⟩
  intro h
  exact Option.noConfusion (rfl.symm.trans h)

/-- C3 (amended): a `TimelineEventEnd` looks its id up in the in-progress
table but does not remove the entry: it fails with `UnmatchedEndEvent`
exactly when the id has no entry at all (never started), and on success the
table is unchanged — so duplicate Ends succeed and every started id's entry
remains in the table after the full log is processed. -/
theorem C3_end_lookup_no_removal (entry : Entry) (s : ProcState)
    (hty : entry.entry_type = "TimelineEventEnd") :
    (process_entry entry s = .error .unmatchedEndEvent ↔
      lookupKV s.in_progress_events entry.id = none)
    ∧ (∀ r s', process_entry entry s = .ok (r, s') →
        s'.in_progress_events = s.in_progress_events) := by
  constructor
  · exact process_entry_end_unmatched_iff entry s hty
  · intro r s' h
    exact (process_entry_end_char entry s r s' hty h).1

theorem C3_end_lookup_no_removal_witness :
    process_entry (endEntry 120 7) emptyInit = .error .unmatchedEndEvent ↔
      lookupKV emptyInit.in_progress_events (endEntry 120 7).id = none :=
  (C3_end_lookup_no_removal (endEntry 120 7) emptyInit rfl).1

/-- The record of a successful single `process_entry` call (dummy on error). -/
def peRec (x : Except ConvError (Record × ProcState)) : Record :=
  match x with
  | .ok (r, _) => r
  | .error _ =>
      { name := none, ph := "", ts := none, pid := none, tid := none, args := none,
        cname := none }

/-- The state of a successful single `process_entry` call (dummy on error). -/
def peState (x : Except ConvError (Record × ProcState)) : ProcState :=
  match x with
  | .ok (_, s) => s
  | .error _ => emptyInit

/-- An agent and a `DMA_COMMAND` resolving to it. -/
def ifmAgent : Agent :=
  { xml := { name := "IFM_STREAMER", child_element_values := [],
             text_representation := "<IFM_STREAMER/>" },
    start_timestamp := none, end_timestamp := none }

def dmaCommand0 : XmlElement :=
  { name := "DMA_COMMAND", child_element_values := [("AGENT_ID", "0")],
    text_representation := "<DMA_COMMAND/>" }

def dmaSetupInstant : Entry :=
  { entry_type := "TimelineEventInstant", timestamp := 5, id := 1,
    metadata_category := "FirmwareDmaReadSetup", metadata_label := "",
    counter_name := "", counter_value := 0 }

def c4Init : ProcState :=
  initProcState [ifmAgent] (CommandList.mk0 [dmaCommand0]) CommandList.default
    CommandList.default CommandList.default

/-- C4 (counterexample): a single `TimelineEventInstant` of category
`FirmwareDmaReadSetup` resolves agent 0 (its output record's `args` carry
`agent_id = 0`), i.e. the agent *is* referenced by a runtime event, yet both
of agent 0's lifetime timestamps remain unset after the run — the agent
lifetime update at main.rs:782-794 runs only for `TimelineEventStart`, never
for Instant events.  This refutes "absent exactly when the agent is never
referenced by any runtime event (including Instant events)". -/
theorem C4_instant_does_not_set_timestamps_counterexample :
    (processEntries [dmaSetupInstant] c4Init).isOk = true
    ∧ Option.bind (recAt (processEntries [dmaSetupInstant] c4Init) 0).args
        Args.agent_id = some 0
    ∧ (stateOf (processEntries [dmaSetupInstant] c4Init)).agents.map
        Agent.start_timestamp = [none]
    ∧ (stateOf (processEntries [dmaSetupInstant] c4Init)).agents.map
        Agent.end_timestamp = [none] :=
  ⟨rfl, rfl, rfl, rfl⟩

theorem processEntries_cons (e : Entry) (rest : List Entry) (s : ProcState) :
    processEntries (e :: rest) s =
      match process_entry e s with
      | .error err => .error err
      | .ok (r, s1) =>
          match processEntries rest s1 with
          | .error err => .error err
          | .ok (rs, s2) => .ok (r :: rs, s2) := rfl

/-- A successful run over a concatenation splits into successful runs over
the two halves, chaining the state. -/
theorem processEntries_append (l₁ l₂ : List Entry) :
    ∀ (s : ProcState) (recs : List Record) (s' : ProcState),
      processEntries (l₁ ++ l₂) s = .ok (recs, s') →
      ∃ r₁ s₁ r₂, processEntries l₁ s = .ok (r₁, s₁)
        ∧ processEntries l₂ s₁ = .ok (r₂, s') ∧ recs = r₁ ++ r₂ := by
  induction l₁ with
  | nil =>
      intro s recs s' h
      exact ⟨[], s, recs, rfl, h, rfl⟩
  | cons e t ih =>
      intro s recs s' h
      rcases processEntries_cons_inv e (t ++ l₂) s recs s' h with ⟨r0, s1, rs, h0, hrest, hr⟩
      rcases ih s1 rs s' hrest with ⟨r₁, s₁, r₂, ht, hl₂, hrs⟩
      refine ⟨r0 :: r₁, s₁, r₂, ?_, hl₂, by rw [hr, hrs]; rfl⟩
      rw [processEntries_cons, h0]
      dsimp only
      rw [ht]

/-- Positive characterization of a Start step's agent effect: when the
classified entry resolves an agent, that agent's `start_timestamp` really is
set — to the old value if one was recorded, to the entry's timestamp
otherwise — with its `end_timestamp`, its xml and all other agents
unchanged. -/
theorem process_entry_start_pos (entry : Entry) (s : ProcState) (r : Record)
    (s' : ProcState) (hty : entry.entry_type = "TimelineEventStart")
    (h : process_entry entry s = .ok (r, s')) :
    ∃ d, classify_entry entry s = .ok d
      ∧ ((d.args.agent_id = none ∧ s'.agents = s.agents)
        ∨ ∃ a ag ag', d.args.agent_id = some a ∧ s.agents.get? a = some ag
            ∧ s'.agents.get? a = some ag'
            ∧ ag'.start_timestamp = some (ag.start_timestamp.getD entry.timestamp)
            ∧ ag'.end_timestamp = ag.end_timestamp
            ∧ ag'.xml = ag.xml
            ∧ ∀ j, j ≠ a → s'.agents.get? j = s.agents.get? j) := by
  rcases process_entry_start_char entry s r s' hty h with ⟨d, hd, _, _, _, _, _, hag⟩
  refine ⟨d, hd, ?_⟩
  rcases hag with ⟨hnone, hunch⟩ | ⟨a, ag, hida, hag0, hset⟩
  · exact Or.inl ⟨hnone, hunch⟩
  · cases hov : ag.start_timestamp with
    | none =>
        rw [hov, if_pos rfl] at hset
        refine Or.inr ⟨a, ag, setStart ag entry.timestamp, hida, hag0, ?_, ?_, rfl, rfl, ?_⟩
        · rw [hset, List.get?_set_eq, hag0]
          rfl
        · rw [hov]
          rfl
        · intro j hj
          rw [hset, List.get?_set_ne _ _ (fun hh => hj hh.symm)]
    | some v =>
        rw [hov, if_neg (fun hh => Option.noConfusion hh)] at hset
        refine Or.inr ⟨a, ag, ag, hida, hag0, ?_, ?_, rfl, rfl, ?_⟩
        · rw [hset]
          exact hag0
        · rw [hov]
          rfl
        · intro j hj
          rw [hset]

/-- Positive characterization of an End step's agent effect: when the
in-progress entry recorded an agent, that agent's `end_timestamp` really is
set to `max(current-or-0, timestamp)`, with its `start_timestamp`, its xml
and all other agents unchanged. -/
theorem process_entry_end_pos (entry : Entry) (s : ProcState) (r : Record)
    (s' : ProcState) (hty : entry.entry_type = "TimelineEventEnd")
    (h : process_entry entry s = .ok (r, s')) :
    ∃ pid tid aid, lookupKV s.in_progress_events entry.id = some (pid, tid, aid)
      ∧ ((aid = none ∧ s'.agents = s.agents)
        ∨ ∃ a ag ag', aid = some a ∧ s.agents.get? a = some ag
            ∧ s'.agents.get? a = some ag'
            ∧ ag'.end_timestamp = some (Nat.max (ag.end_timestamp.getD 0) entry.timestamp)
            ∧ ag'.start_timestamp = ag.start_timestamp
            ∧ ag'.xml = ag.xml
            ∧ ∀ j, j ≠ a → s'.agents.get? j = s.agents.get? j) := by
  rcases process_entry_end_char entry s r s' hty h with
    ⟨_, _, _, _, pid, tid, aid, hlk, _, hag⟩
  refine ⟨pid, tid, aid, hlk, ?_⟩
  rcases hag with ⟨hnone, hunch⟩ | ⟨a, ag, hida, hag0, hset⟩
  · exact Or.inl ⟨hnone, hunch⟩
  · refine Or.inr ⟨a, ag, bumpEnd ag entry.timestamp, hida, hag0, ?_, rfl, rfl, rfl, ?_⟩
    · rw [hset, List.get?_set_eq, hag0]
      rfl
    · intro j hj
      rw [hset, List.get?_set_ne _ _ (fun hh => hj hh.symm)]

/-- Per-step agent stability: a set `start_timestamp` survives any step
unchanged, a set `end_timestamp` can only grow, and the xml never changes. -/
theorem process_entry_agent_step (entry : Entry) (s : ProcState) (r : Record)
    (s' : ProcState) (h : process_entry entry s = .ok (r, s')) :
    ∀ i a, s.agents.get? i = some a →
      ∃ a', s'.agents.get? i = some a' ∧ a'.xml = a.xml
        ∧ (∀ v, a.start_timestamp = some v → a'.start_timestamp = some v)
        ∧ (∀ v, a.end_timestamp = some v → ∃ w, a'.end_timestamp = some w ∧ v ≤ w) := by
  intro i a ha
  by_cases hS : entry.entry_type = "TimelineEventStart"
  · rcases process_entry_start_pos entry s r s' hS h with ⟨d, _, hcase⟩
    rcases hcase with ⟨_, hunch⟩ | ⟨a0, ag, ag', _, hag0, hga', hst, hen, hxml, hfr⟩
    · exact ⟨a, by rw [hunch]; exact ha, rfl, fun v hv => hv,
        fun v hv => ⟨v, hv, le_refl v⟩⟩
    · by_cases hia : i = a0
      · subst hia
        have haag : a = ag := Option.some.inj (ha.symm.trans hag0)
        subst haag
        refine ⟨ag', hga', hxml, ?_, ?_⟩
        · intro v hv
          rw [hst, hv]
          rfl
        · intro v hv
          rw [hen]
          exact ⟨v, hv, le_refl v⟩
      · exact ⟨a, by rw [hfr i hia]; exact ha, rfl, fun v hv => hv,
          fun v hv => ⟨v, hv, le_refl v⟩⟩
  · by_cases hE : entry.entry_type = "TimelineEventEnd"
    · rcases process_entry_end_pos entry s r s' hE h with ⟨pid, tid, aid, _, hcase⟩
      rcases hcase with ⟨_, hunch⟩ | ⟨a0, ag, ag', _, hag0, hga', hen, hst, hxml, hfr⟩
      · exact ⟨a, by rw [hunch]; exact ha, rfl, fun v hv => hv,
          fun v hv => ⟨v, hv, le_refl v⟩⟩
      · by_cases hia : i = a0
        · subst hia
          have haag : a = ag := Option.some.inj (ha.symm.trans hag0)
          subst haag
          refine ⟨ag', hga', hxml, ?_, ?_⟩
          · intro v hv
            rw [hst]
            exact hv
          · intro v hv
            refine ⟨Nat.max v entry.timestamp, ?_, Nat.le_max_left v entry.timestamp⟩
            rw [hen, hv]
            rfl
        · exact ⟨a, by rw [hfr i hia]; exact ha, rfl, fun v hv => hv,
            fun v hv => ⟨v, hv, le_refl v⟩⟩
    · rcases process_entry_other_char entry s r s' hE hS h with ⟨d, _, _, hs'⟩
      refine ⟨a, ?_, rfl, fun v hv => hv, fun v hv => ⟨v, hv, le_refl v⟩⟩
      rw [hs']
      exact ha

/-- Run-level agent stability: across a whole successful run, a set
`start_timestamp` is never overwritten and a set `end_timestamp` never
decreases. -/
theorem processEntries_stability (entries : List Entry) :
    ∀ (s : ProcState) (recs : List Record) (s' : ProcState),
      processEntries entries s = .ok (recs, s') →
      ∀ i a, s.agents.get? i = some a →
        ∃ a', s'.agents.get? i = some a' ∧ a'.xml = a.xml
          ∧ (∀ v, a.start_timestamp = some v → a'.start_timestamp = some v)
          ∧ (∀ v, a.end_timestamp = some v → ∃ w, a'.end_timestamp = some w ∧ v ≤ w) := by
  induction entries with
  | nil =>
      intro s recs s' h i a ha
      cases h
      exact ⟨a, ha, rfl, fun v hv => hv, fun v hv => ⟨v, hv, le_refl v⟩⟩
  | cons e rest ih =>
      intro s recs s' h i a ha
      rcases processEntries_cons_inv e rest s recs s' h with ⟨r0, s1, rs, h0, hrest, _⟩
      rcases process_entry_agent_step e s r0 s1 h0 i a ha with ⟨b, hb, hbx, hbs, hbe⟩
      rcases ih s1 rs s' hrest i b hb with ⟨c, hc, hcx, hcs, hce⟩
      refine ⟨c, hc, hcx.trans hbx, fun v hv => hcs v (hbs v hv), fun v hv => ?_⟩
      rcases hbe v hv with ⟨w, hw, hvw⟩
      rcases hce w hw with ⟨u, hu, hwu⟩
      exact ⟨u, hu, hvw.trans hwu⟩

/-- A Start entry of category `FirmwareDmaReadSetup` (attributable to agent 0
through `dmaCommand0`), and the two-entry log Start/End used to exercise the
lifetime updates. -/
def c4Start : Entry :=
  { entry_type := "TimelineEventStart", timestamp := 5, id := 1,
    metadata_category := "FirmwareDmaReadSetup", metadata_label := "",
    counter_name := "", counter_value := 0 }

def c4Entries : List Entry := [c4Start, endEntry 9 1]

/-- The display of a successful classification (dummy on error). -/
def displayOf (x : Except ConvError EntryDisplay) : EntryDisplay :=
  match x with
  | .ok d => d
  | .error _ =>
      { ph := "", process_name := "", thread_name := "", event_name := "",
        args := Args.empty, color := "", dma_rd_commands := CommandList.default,
        dma_wr_commands := CommandList.default, mce_commands := CommandList.default,
        ple_commands := CommandList.default, mce_bank := 0 }

/-- First and second components of an in-progress-table entry (0 if absent). -/
def ipeFst (s : ProcState) (i : Nat) : Nat :=
  match lookupKV s.in_progress_events i with
  | some (p, _, _) => p
  | none => 0

def ipeSnd (s : ProcState) (i : Nat) : Nat :=
  match lookupKV s.in_progress_events i with
  | some (_, t, _) => t
  | none => 0

/-- Agent timestamps by index. -/
def agentStartAt (s : ProcState) (i : Nat) : Option Nat :=
  (s.agents.get? i).bind Agent.start_timestamp

def agentEndAt (s : ProcState) (i : Nat) : Option Nat :=
  (s.agents.get? i).bind Agent.end_timestamp

/-- C4 (amended): per step, entries that are neither Start nor End — all
Instants included — leave every agent untouched.  A `TimelineEventStart`
that resolves an agent updates exactly that agent, actually setting its
`start_timestamp`: to the entry's timestamp when previously unset, keeping
the old value otherwise (so it is set by the earliest attributable Start and
never overwritten), with its `end_timestamp`, its xml and every other agent
unchanged; a Start resolving no agent changes no agent.  A
`TimelineEventEnd` whose Start recorded an agent updates exactly that agent,
actually setting its `end_timestamp` to `max(current-or-0, timestamp)` (so
it is only ever raised and its final value is the maximum of the matching
Ends' timestamps), with its `start_timestamp`, its xml and every other agent
unchanged; an End with no recorded agent changes no agent.  Run-level: a set
start timestamp survives a whole successful run unchanged, a set end
timestamp never decreases, and once an attributable Start (resp. matching
End) is processed anywhere in a successful run, the resolved agent's start
(resp. end) timestamp is set in the final state — each timestamp is absent
exactly when no attributable Start (resp. matching End) was processed. -/
theorem C4_agent_lifetime_updates :
    (∀ (entry : Entry) (s : ProcState) (r : Record) (s' : ProcState),
      process_entry entry s = .ok (r, s') →
      (entry.entry_type ≠ "TimelineEventStart" ∧ entry.entry_type ≠ "TimelineEventEnd" →
        s'.agents = s.agents)
      ∧ (entry.entry_type = "TimelineEventStart" →
          ∃ d, classify_entry entry s = .ok d
            ∧ ((d.args.agent_id = none ∧ s'.agents = s.agents)
              ∨ ∃ a ag ag', d.args.agent_id = some a ∧ s.agents.get? a = some ag
                  ∧ s'.agents.get? a = some ag'
                  ∧ ag'.start_timestamp = some (ag.start_timestamp.getD entry.timestamp)
                  ∧ ag'.end_timestamp = ag.end_timestamp
                  ∧ ag'.xml = ag.xml
                  ∧ ∀ j, j ≠ a → s'.agents.get? j = s.agents.get? j))
      ∧ (entry.entry_type = "TimelineEventEnd" →
          ∃ pid tid aid, lookupKV s.in_progress_events entry.id = some (pid, tid, aid)
            ∧ ((aid = none ∧ s'.agents = s.agents)
              ∨ ∃ a ag ag', aid = some a ∧ s.agents.get? a = some ag
                  ∧ s'.agents.get? a = some ag'
                  ∧ ag'.end_timestamp
                      = some (Nat.max (ag.end_timestamp.getD 0) entry.timestamp)
                  ∧ ag'.start_timestamp = ag.start_timestamp
                  ∧ ag'.xml = ag.xml
                  ∧ ∀ j, j ≠ a → s'.agents.get? j = s.agents.get? j)))
    ∧ (∀ (entries : List Entry) (s : ProcState) (recs : List Record) (s' : ProcState),
        processEntries entries s = .ok (recs, s') →
        ∀ i a, s.agents.get? i = some a →
          ∃ a', s'.agents.get? i = some a' ∧ a'.xml = a.xml
            ∧ (∀ v, a.start_timestamp = some v → a'.start_timestamp = some v)
            ∧ (∀ v, a.end_timestamp = some v →
                ∃ w, a'.end_timestamp = some w ∧ v ≤ w))
    ∧ (∀ (pre : List Entry) (e : Entry) (post : List Entry) (s : ProcState)
          (recs r1 : List Record) (s' s1 : ProcState),
        processEntries (pre ++ e :: post) s = .ok (recs, s') →
        processEntries pre s = .ok (r1, s1) →
        (e.entry_type = "TimelineEventStart" →
          ∀ d a, classify_entry e s1 = .ok d → d.args.agent_id = some a →
            ∃ a', s'.agents.get? a = some a' ∧ a'.start_timestamp.isSome = true)
        ∧ (e.entry_type = "TimelineEventEnd" →
          ∀ pid tid a,
            lookupKV s1.in_progress_events e.id = some (pid, tid, some a) →
            ∃ a', s'.agents.get? a = some a' ∧ a'.end_timestamp.isSome = true)) := by
  refine ⟨?_, ?_, ?_⟩
  · intro entry s r s' h
    refine ⟨?_, ?_, ?_⟩
    · rintro ⟨hns, hne⟩
      rcases process_entry_other_char entry s r s' hne hns h with ⟨d, _, _, hs'⟩
      rw [hs']
      rfl
    · intro hty
      exact process_entry_start_pos entry s r s' hty h
    · intro hty
      exact process_entry_end_pos entry s r s' hty h
  · intro entries s recs s' h
    exact processEntries_stability entries s recs s' h
  · intro pre e post s recs r1 s' s1 h hpre
    rcases processEntries_append pre (e :: post) s recs s' h with
      ⟨r₁', s₁', r₂, hpre', hrest, _⟩
    have h2 := Except.ok.inj (hpre'.symm.trans hpre)
    have hs1 : s₁' = s1 := congrArg Prod.snd h2
    rw [hs1] at hrest
    rcases processEntries_cons_inv e post s1 r₂ s' hrest with ⟨r0, s2, rs, h0, hpost, _⟩
    constructor
    · intro hty d a hcl hid
      rcases process_entry_start_pos e s1 r0 s2 hty h0 with ⟨d', hd', hcase⟩
      have hdd : d' = d := Except.ok.inj (hd'.symm.trans hcl)
      subst hdd
      rcases hcase with ⟨hnone, _⟩ | ⟨a0, ag, ag', hid0, hag0, hga', hst, _, _, _⟩
      · exact Option.noConfusion (hid.symm.trans hnone)
      · have haa : a0 = a := Option.some.inj (hid0.symm.trans hid)
        rw [← haa]
        rcases processEntries_stability post s2 rs s' hpost a0 ag' hga' with
          ⟨a'', ha'', _, hstab, _⟩
        refine ⟨a'', ha'', ?_⟩
        rw [hstab (ag.start_timestamp.getD e.timestamp) hst]
        rfl
    · intro hty pid tid a hlk
      rcases process_entry_end_pos e s1 r0 s2 hty h0 with ⟨pid', tid', aid', hlk', hcase⟩
      have hinj := Option.some.inj (hlk'.symm.trans hlk)
      have haid : aid' = some a := congrArg (fun x => x.2.2) hinj
      rcases hcase with ⟨hnone, _⟩ | ⟨a0, ag, ag', hid0, hag0, hga', hen, _, _, _⟩
      · exact Option.noConfusion (haid.symm.trans hnone)
      · have haa : a0 = a := Option.some.inj (hid0.symm.trans haid)
        rw [← haa]
        rcases processEntries_stability post s2 rs s' hpost a0 ag' hga' with
          ⟨a'', ha'', _, _, hend⟩
        rcases hend (Nat.max (ag.end_timestamp.getD 0) e.timestamp) hen with ⟨w, hw, _⟩
        refine ⟨a'', ha'', ?_⟩
        rw [hw]
        rfl

theorem C4_agent_lifetime_updates_witness :
    (peState (process_entry counterEntry emptyInit)).agents = emptyInit.agents
    ∧ (agentStartAt (stateOf (processEntries c4Entries c4Init)) 0).isSome = true
    ∧ (agentEndAt (stateOf (processEntries c4Entries c4Init)) 0).isSome = true := by
  refine ⟨?_, ?_, ?_⟩
  · exact (C4_agent_lifetime_updates.1 counterEntry emptyInit
      (peRec (process_entry counterEntry emptyInit))
      (peState (process_entry counterEntry emptyInit)) rfl).1 ⟨by decide, by decide⟩
  · obtain ⟨a', ha', hs⟩ := ((C4_agent_lifetime_updates.2.2 [] c4Start [endEntry 9 1]
      c4Init (recsOf (processEntries c4Entries c4Init)) []
      (stateOf (processEntries c4Entries c4Init)) c4Init rfl rfl).1 rfl
      (displayOf (classify_entry c4Start c4Init)) 0 rfl rfl)
    unfold agentStartAt
    rw [ha']
    exact hs
  · obtain ⟨a', ha', hs⟩ := ((C4_agent_lifetime_updates.2.2 [c4Start] (endEntry 9 1) []
      c4Init (recsOf (processEntries c4Entries c4Init))
      (recsOf (processEntries [c4Start] c4Init))
      (stateOf (processEntries c4Entries c4Init))
      (stateOf (processEntries [c4Start] c4Init)) rfl rfl).2 rfl
      (ipeFst (stateOf (processEntries [c4Start] c4Init)) 1)
      (ipeSnd (stateOf (processEntries [c4Start] c4Init)) 1) 0 rfl)
    unfold agentEndAt
    rw [ha']
    exact hs

/-- A never-ended Begin record, as the main pass would emit for a Start that
has no matching End. -/
def c5Begin : Record :=
  { name := some "Buffer 1", ph := "B", ts := some 10, pid := some 1,
    tid := some 2, args := none, cname := none }

/-- C5 (behaviour at the failing input): finalizing a data list holding one
never-ended Begin synthesizes exactly one End record at the maximum
timestamp with the " (NOT ENDED)" name suffix — but the Begin record emitted
in the output keeps its original name, without the closure-marker suffix.
The rename at main.rs:620 is applied to the `clone` stored in the
`begin_events` map (main.rs:599), not to the record in `data`, so only the
derived End carries the suffix; in the Python original the map held a
reference and the rename reached the output record, which is the documented
intent ("rename the record to flag it as artificially closed"). -/
theorem C5_not_ended_rename_misses_output_begin :
    process_finalize [c5Begin] [] [] [] false id id id =
      .ok [c5Begin,
           { c5Begin with
             name := some "Buffer 1 (NOT ENDED)", ph := "E", ts := some 10 },
           processMeta (hash_string "b) Command Stream", "b) Command Stream")] := by
  rfl

/-- C7: an End record whose timestamp is strictly before its open Begin's
(same `(pid, tid)` key) makes validation fail with `invertedDuration`, and
conversely that error only arises from such an inversion; a repeated Begin
for an open key is non-fatal (a printed warning) and leaves the map — hence
the first Begin — unchanged; and the concrete scenario `TimelineEventStart`
id=7 at t=100 followed by `TimelineEventEnd` id=7 at t=50 aborts the whole
pipeline with `invertedDuration`. -/
theorem C7_inverted_duration :
    (∀ (bmap : List ((Nat × Nat) × Record)) (r b : Record) (pid tid tb te : Nat),
      r.pid = some pid → r.tid = some tid → r.ph = "E" →
      lookupKV bmap (pid, tid) = some b → r.ts = some te → b.ts = some tb →
      (te < tb ↔ validateStep bmap r = .error .invertedDuration))
    ∧ (∀ (bmap : List ((Nat × Nat) × Record)) (r : Record) (pid tid : Nat),
        r.pid = some pid → r.tid = some tid → r.ph = "B" →
        (lookupKV bmap (pid, tid)).isSome = true → validateStep bmap r = .ok bmap)
    ∧ process_json [wfeStartEntry 100 7, endEntry 50 7] [] CommandList.default
        CommandList.default CommandList.default CommandList.default false id id id
      = .error .invertedDuration := by
  refine ⟨?_, ?_, by rfl⟩
  · intro bmap r b pid tid tb te hp ht hph hlk hts hbts
    unfold validateStep
    rw [hp, ht, hph]
    dsimp only
    rw [hlk]
    dsimp only
    rw [hts, hbts]
    dsimp only
    rw [if_neg (show ¬("E" : String) = "B" by decide),
      if_pos (show ("E" : String) = "E" by rfl)]
    constructor
    · intro hlt
      rw [if_pos hlt]
    · intro heq
      by_contra hge
      rw [if_neg hge] at heq
      cases heq
  · intro bmap r pid tid hp ht hph hsome
    unfold validateStep
    rw [hp, ht, hph]
    dsimp only
    rw [if_pos (show ("B" : String) = "B" by rfl)]
    simp [hsome]

/-- A concrete open-Begin map and an inverted End for the same key. -/
def c7B : Record :=
  { name := some "span", ph := "B", ts := some 100, pid := some 1, tid := some 2,
    args := none, cname := none }

def c7End : Record :=
  { name := none, ph := "E", ts := some 50, pid := some 1, tid := some 2,
    args := none, cname := none }

theorem C7_inverted_duration_witness :
    50 < 100 ↔ validateStep [((1, 2), c7B)] c7End = .error .invertedDuration :=
  C7_inverted_duration.1 [((1, 2), c7B)] c7End c7B 1 2 100 50 rfl rfl rfl rfl rfl rfl

theorem lookupKV_insertKV_self {κ α : Type} [DecidableEq κ] (m : List (κ × α)) (k : κ) (v : α) :
    lookupKV (insertKV m k v) k = some v := by
  induction m with
  | nil => simp [insertKV, lookupKV, List.find?]
  | cons p rest ih =>
      obtain ⟨k', v'⟩ := p
      by_cases hk : k' = k
      · simp [insertKV, hk, lookupKV, List.find?]
      · simp only [insertKV, if_neg hk]
        simp only [lookupKV, List.find?] at ih ⊢
        have : (decide (k' = k)) = false := by simpa using hk
        rw [this]
        exact ih

theorem lookupKV_insertKV_ne {κ α : Type} [DecidableEq κ] (m : List (κ × α)) (k k' : κ) (v : α)
    (hne : k' ≠ k) : lookupKV (insertKV m k v) k' = lookupKV m k' := by
  induction m with
  | nil =>
      simp only [insertKV, lookupKV, List.find?]
      have : (decide (k = k')) = false := by simpa using fun hh => hne hh.symm
      rw [this]
  | cons p rest ih =>
      obtain ⟨k0, v0⟩ := p
      by_cases hk : k0 = k
      · simp only [insertKV, if_pos hk, lookupKV, List.find?]
        have h1 : (decide (k = k')) = false := by simpa using fun hh => hne hh.symm
        have h2 : (decide (k0 = k')) = false := by
          subst hk
          exact h1
        rw [h1, h2]
      · simp only [insertKV, if_neg hk]
        simp only [lookupKV, List.find?] at ih ⊢
        cases hd : decide (k0 = k')
        · exact ih
        · rfl

/-- Is there a `TimelineEventEnd` for `id` in the given entries? -/
def endsFor (id : Nat) (entries : List Entry) : Bool :=
  entries.any fun e => e.entry_type == "TimelineEventEnd" && e.id == id

/-- The ids of the `TimelineEventStart` entries, in order. -/
def startIds (entries : List Entry) : List Nat :=
  (entries.filter fun e => e.entry_type == "TimelineEventStart").map Entry.id

/-- Well-matchedness of a runtime log: every `TimelineEventStart` has a later
`TimelineEventEnd` with the same id, and no later Start reuses its id. -/
def wellMatched : List Entry → Bool
  | [] => true
  | e :: rest =>
      (if e.entry_type == "TimelineEventStart" then
        endsFor e.id rest && !((startIds rest).contains e.id)
      else true) && wellMatched rest

theorem endsFor_cons_of_not_end (id : Nat) (e : Entry) (rest : List Entry)
    (h : e.entry_type ≠ "TimelineEventEnd") :
    endsFor id (e :: rest) = endsFor id rest := by
  simp only [endsFor, List.any_cons]
  have : (e.entry_type == "TimelineEventEnd") = false := by simpa using h
  rw [this]
  simp

theorem startIds_cons_of_start (e : Entry) (rest : List Entry)
    (h : e.entry_type = "TimelineEventStart") :
    startIds (e :: rest) = e.id :: startIds rest := by
  simp only [startIds, List.filter_cons]
  have : (e.entry_type == "TimelineEventStart") = true := by simpa using h
  rw [this]
  simp

theorem startIds_cons_of_not_start (e : Entry) (rest : List Entry)
    (h : e.entry_type ≠ "TimelineEventStart") :
    startIds (e :: rest) = startIds rest := by
  simp only [startIds, List.filter_cons]
  have : (e.entry_type == "TimelineEventStart") = false := by simpa using h
  rw [this]
  simp

theorem wellMatched_cons (e : Entry) (rest : List Entry)
    (h : wellMatched (e :: rest) = true) :
    wellMatched rest = true
    ∧ (e.entry_type = "TimelineEventStart" →
        endsFor e.id rest = true ∧ (startIds rest).contains e.id = false) := by
  simp only [wellMatched, Bool.and_eq_true] at h
  refine ⟨h.2, fun hst => ?_⟩
  have : (e.entry_type == "TimelineEventStart") = true := by simpa using hst
  rw [this] at h
  rw [if_pos rfl] at h
  have h1 := h.1
  simp only [Bool.and_eq_true, Bool.not_eq_true'] at h1
  exact h1

/-- Invariant of the main pass: every agent whose `start_timestamp` is set
either already has its `end_timestamp` set, or there is an open in-progress
entry recording it whose id will still be Ended in the remaining entries and
whose id is not reused by a remaining Start. -/
def AgentsClosed (s : ProcState) (rest : List Entry) : Prop :=
  ∀ i a, s.agents.get? i = some a → a.start_timestamp.isSome = true →
    a.end_timestamp.isSome = true ∨
    ∃ id pid tid, lookupKV s.in_progress_events id = some (pid, tid, some i)
      ∧ endsFor id rest = true ∧ (startIds rest).contains id = false

/-- Preservation of the closing invariant by one step of the main pass. -/
theorem AgentsClosed_preserved (e : Entry) (rest : List Entry) (s : ProcState)
    (r : Record) (s1 : ProcState)
    (h : process_entry e s = .ok (r, s1))
    (hwm : wellMatched (e :: rest) = true)
    (hinv : AgentsClosed s (e :: rest)) : AgentsClosed s1 rest := by
  obtain ⟨hwmrest, hwmstart⟩ := wellMatched_cons e rest hwm
  by_cases hend : e.entry_type = "TimelineEventEnd"
  · obtain ⟨htab, _, _, _, ⟨pid, tid, aid, hlk, _, hag⟩⟩ :=
      process_entry_end_char e s r s1 hend h
    intro i a hai hisome
    have survive : s.agents.get? i = some a → (aid = some i → False) →
        a.end_timestamp.isSome = true ∨
        ∃ id p t, lookupKV s1.in_progress_events id = some (p, t, some i)
          ∧ endsFor id rest = true ∧ (startIds rest).contains id = false := by
      intro hai' hnotme
      rcases hinv i a hai' hisome with hdone | ⟨id, p, t, hw, hwE, hwS⟩
      · exact Or.inl hdone
      · refine Or.inr ⟨id, p, t, by rw [htab]; exact hw, ?_, ?_⟩
        · by_cases hide : id = e.id
          · rw [hide] at hw
            have hinj := Option.some.inj (hw.symm.trans hlk)
            have hsome : some i = aid := congrArg (fun q => q.2.2) hinj
            exact absurd hsome.symm fun hh => hnotme hh
          · simp only [endsFor, List.any_cons, Bool.or_eq_true] at hwE
            rcases hwE with hbad | hgood
            · simp only [Bool.and_eq_true, beq_iff_eq] at hbad
              exact absurd hbad.2.symm hide
            · exact hgood
        · rwa [startIds_cons_of_not_start e rest (by rw [hend]; decide)] at hwS
    rcases hag with ⟨haid, hunch⟩ | ⟨a0, ag, haid, hag0, hset⟩
    · rw [hunch] at hai
      exact survive hai (fun hh => by rw [haid] at hh; cases hh)
    · by_cases hia : i = a0
      · subst hia
        have hget : (s.agents.set i (bumpEnd ag e.timestamp)).get? i =
            some (bumpEnd ag e.timestamp) := by
          rw [List.get?_set_eq, hag0]
          rfl
        rw [hset, hget] at hai
        have ha : a = bumpEnd ag e.timestamp := (Option.some.inj hai).symm
        rw [ha]
        exact Or.inl rfl
      · rw [hset, List.get?_set_ne _ _ (fun hh => hia hh.symm)] at hai
        refine survive hai (fun hh => ?_)
        rw [haid] at hh
        exact hia (Option.some.inj hh).symm
  · by_cases hstart : e.entry_type = "TimelineEventStart"
    · obtain ⟨hE, hS⟩ := hwmstart hstart
      obtain ⟨d, _, _, _, _, _, htab, hag⟩ := process_entry_start_char e s r s1 hstart h
      intro i a hai hisome
      have survive : s.agents.get? i = some a →
          a.end_timestamp.isSome = true ∨
          ∃ id p t, lookupKV s1.in_progress_events id = some (p, t, some i)
            ∧ endsFor id rest = true ∧ (startIds rest).contains id = false := by
        intro hai'
        rcases hinv i a hai' hisome with hdone | ⟨id, p, t, hw, hwE, hwS⟩
        · exact Or.inl hdone
        · rw [startIds_cons_of_start e rest hstart] at hwS
          simp at hwS
          refine Or.inr ⟨id, p, t, ?_, ?_, ?_⟩
          · rw [htab, lookupKV_insertKV_ne _ _ _ _ hwS.1]
            exact hw
          · rwa [endsFor_cons_of_not_end id e rest (by rw [hstart]; decide)] at hwE
          · simp
            exact hwS.2
      rcases hag with ⟨haid, hunch⟩ | ⟨a0, ag, haid, hag0, hset⟩
      · rw [hunch] at hai
        exact survive hai
      · by_cases hia : i = a0
        · subst hia
          by_cases hst0 : ag.start_timestamp = none
          · refine Or.inr ⟨e.id, hash_string d.process_name, hash_string d.thread_name,
              ?_, hE, hS⟩
            rw [htab, haid]
            exact lookupKV_insertKV_self _ _ _
          · rw [hset, if_neg hst0] at hai
            exact survive hai
        · rw [hset] at hai
          have hai' : s.agents.get? i = some a := by
            by_cases hst0 : ag.start_timestamp = none
            · rw [if_pos hst0] at hai
              rwa [List.get?_set_ne _ _ (fun hh => hia hh.symm)] at hai
            · rwa [if_neg hst0] at hai
          exact survive hai'
    · obtain ⟨d, _, _, hs1⟩ := process_entry_other_char e s r s1 hend hstart h
      intro i a hai hisome
      rw [hs1] at hai
      have hai' : s.agents.get? i = some a := hai
      rcases hinv i a hai' hisome with hdone | ⟨id, p, t, hw, hwE, hwS⟩
      · exact Or.inl hdone
      · refine Or.inr ⟨id, p, t, ?_, ?_, ?_⟩
        · rw [hs1]
          exact hw
        · rwa [endsFor_cons_of_not_end id e rest hend] at hwE
        · rwa [startIds_cons_of_not_start e rest hstart] at hwS

/-- After a successful main pass over a well-matched log starting from a
state satisfying the invariant, every agent whose start timestamp is set has
its end timestamp set. -/
theorem processEntries_closed (entries : List Entry) :
    ∀ s recs s', wellMatched entries = true → AgentsClosed s entries →
      processEntries entries s = .ok (recs, s') →
      ∀ i a, s'.agents.get? i = some a → a.start_timestamp.isSome = true →
        a.end_timestamp.isSome = true := by
  induction entries with
  | nil =>
      intro s recs s' _ hinv h
      cases h
      intro i a hai hsome
      rcases hinv i a hai hsome with hdone | ⟨id, p, t, _, hwE, _⟩
      · exact hdone
      · rw [show endsFor id [] = false from rfl] at hwE
        cases hwE
  | cons e rest ih =>
      intro s recs s' hwm hinv h
      rcases processEntries_cons_inv e rest s recs s' h with ⟨r0, s1, rs, h0, hrest, _⟩
      exact ih s1 rs s' (wellMatched_cons e rest hwm).1
        (AgentsClosed_preserved e rest s r0 s1 h0 hwm hinv) hrest

/-- The agent-span loop never panics when every started agent also has an
end timestamp. -/
theorem finalizeAgentSpans_ok (pid : Nat) (agentsEnum : List (Nat × Agent)) :
    ∀ data tn,
      (∀ p ∈ agentsEnum, (Prod.snd p).start_timestamp.isSome = true →
        (Prod.snd p).end_timestamp.isSome = true) →
      ∃ x, finalizeAgentSpans pid agentsEnum data tn = .ok x := by
  induction agentsEnum with
  | nil =>
      intro data tn _
      exact ⟨_, rfl⟩
  | cons q rest ih =>
      intro data tn hall
      obtain ⟨idx, agent⟩ := q
      unfold finalizeAgentSpans
      cases hst : agent.start_timestamp with
      | none => exact ih data tn (fun p hp => hall p (List.mem_cons_of_mem _ hp))
      | some st =>
          cases het : agent.end_timestamp with
          | none =>
              have hh := hall (idx, agent) (List.mem_cons_self _ _) (by rw [hst]; rfl)
              rw [het] at hh
              cases hh
          | some et => exact ih _ _ (fun p hp => hall p (List.mem_cons_of_mem _ hp))

/-- The agent-span loop aborts with `agentEndUnset` as soon as it reaches an
agent whose start timestamp is set but whose end timestamp is not. -/
theorem finalizeAgentSpans_err (pid : Nat) (agentsEnum : List (Nat × Agent)) :
    ∀ data tn,
      (∃ p ∈ agentsEnum, (Prod.snd p).start_timestamp.isSome = true ∧
        (Prod.snd p).end_timestamp = none) →
      finalizeAgentSpans pid agentsEnum data tn = .error .agentEndUnset := by
  induction agentsEnum with
  | nil =>
      rintro data tn ⟨p, hp, _⟩
      exact absurd hp (List.not_mem_nil p)
  | cons q rest ih =>
      rintro data tn ⟨⟨pidx, pagent⟩, hp, hps, hpe⟩
      obtain ⟨idx, agent⟩ := q
      unfold finalizeAgentSpans
      rcases List.mem_cons.mp hp with heq | hmem
      · cases heq
        cases hst : pagent.start_timestamp with
        | none =>
            rw [hst] at hps
            cases hps
        | some st =>
            rw [hpe]
      · cases hst : agent.start_timestamp with
        | none => exact ih data tn ⟨(pidx, pagent), hmem, hps, hpe⟩
        | some st =>
            cases het : agent.end_timestamp with
            | none => rfl
            | some et => exact ih _ _ ⟨(pidx, pagent), hmem, hps, hpe⟩

/-- `process_finalize` aborts with `agentEndUnset` whenever some agent has a
set start timestamp but no end timestamp. -/
theorem process_finalize_agentEndUnset (data : List Record) (agents : List Agent)
    (pn : List (Nat × String)) (tn : List ((Nat × Nat) × String))
    (oB : List ((Nat × Nat) × Record) → List ((Nat × Nat) × Record))
    (oP : List (Nat × String) → List (Nat × String))
    (oT : List ((Nat × Nat) × String) → List ((Nat × Nat) × String))
    (hbad : ∃ a ∈ agents, a.start_timestamp.isSome = true ∧ a.end_timestamp = none) :
    process_finalize data agents pn tn false oB oP oT = .error .agentEndUnset := by
  obtain ⟨a, hmem, hs, he⟩ := hbad
  obtain ⟨n, hn⟩ := List.mem_iff_get?.mp hmem
  have henum : (n, a) ∈ agents.enum := List.mk_mem_enum_iff_get?.mpr hn
  have herr := finalizeAgentSpans_err (hash_string "b) Command Stream") agents.enum
    data tn ⟨(n, a), henum, hs, he⟩
  unfold process_finalize
  rw [herr]

/-- A `TimelineEventStart` of category `FirmwareDmaReadSetup` (attributable
to agent 0 through `dmaCommand0`). -/
def dmaSetupStart : Entry :=
  { entry_type := "TimelineEventStart", timestamp := 5, id := 1,
    metadata_category := "FirmwareDmaReadSetup", metadata_label := "",
    counter_name := "", counter_value := 0 }

/-- An agent whose `start_timestamp` is set but whose `end_timestamp` is
not: the input that hits the finalizer's `end_timestamp.unwrap()`. -/
def badAgent : Agent :=
  { xml := { name := "IFM_STREAMER", child_element_values := [],
             text_representation := "<IFM_STREAMER/>" },
    start_timestamp := some 5, end_timestamp := none }

/-- A well-matched log: an agent-attributable Start (id 1) and its End. -/
def c10Entries : List Entry := [dmaSetupStart, endEntry 9 1]

/-- Initial state for the C10 witness run: one agent, one `DMA_COMMAND`
resolving to it. -/
def c10Init : ProcState :=
  initProcState [ifmAgent] (CommandList.mk0 [dmaCommand0]) CommandList.default
    CommandList.default CommandList.default

/-- C10: the finalizer's agent-span loop unwraps `end_timestamp`
(main.rs:553) for every agent whose `start_timestamp` is set.  (1) When every
`TimelineEventStart` in the log has a matching later `TimelineEventEnd` and no
later Start reuses its id (`wellMatched` — in particular every
agent-attributable Start is matched), a successful main pass starting from
agents with no timestamps leaves every started agent with an end timestamp,
so the unwrap's panic branch (`agentEndUnset`) is unreachable and the span
loop succeeds.  (2) Conversely, an agent left with a set start timestamp but
no end timestamp — as produced by a Start with no matching End — makes
`process_finalize` fail with `agentEndUnset` rather than repair the span. -/
theorem C10_agent_end_unwrap :
    (∀ (entries : List Entry) (agents : List Agent)
        (rd wr mce ple : CommandList) (recs : List Record) (s' : ProcState)
        (tn : List ((Nat × Nat) × String)),
      wellMatched entries = true →
      (∀ a ∈ agents, a.start_timestamp = none) →
      processEntries entries (initProcState agents rd wr mce ple) = .ok (recs, s') →
      ∃ x, finalizeAgentSpans (hash_string "b) Command Stream") s'.agents.enum
        recs tn = .ok x)
    ∧ (∀ (data : List Record) (agents : List Agent) (pn : List (Nat × String))
        (tn : List ((Nat × Nat) × String))
        (oB : List ((Nat × Nat) × Record) → List ((Nat × Nat) × Record))
        (oP : List (Nat × String) → List (Nat × String))
        (oT : List ((Nat × Nat) × String) → List ((Nat × Nat) × String)),
        (∃ a ∈ agents, a.start_timestamp.isSome = true ∧ a.end_timestamp = none) →
        process_finalize data agents pn tn false oB oP oT = .error .agentEndUnset) := by
  constructor
  · intro entries agents rd wr mce ple recs s' tn hwm hinit h
    have hinv : AgentsClosed (initProcState agents rd wr mce ple) entries := by
      intro i a hai hsome
      have hmem : a ∈ agents := List.get?_mem hai
      rw [hinit a hmem] at hsome
      cases hsome
    have hclosed := processEntries_closed entries _ recs s' hwm hinv h
    exact finalizeAgentSpans_ok _ s'.agents.enum recs tn
      (fun p hp hps => hclosed p.1 p.2 (List.mem_enum_iff_get?.mp hp) hps)
  · intro data agents pn tn oB oP oT hbad
    exact process_finalize_agentEndUnset data agents pn tn oB oP oT hbad

theorem C10_agent_end_unwrap_witness :
    (finalizeAgentSpans (hash_string "b) Command Stream")
        (stateOf (processEntries c10Entries c10Init)).agents.enum
        (recsOf (processEntries c10Entries c10Init)) []).isOk = true
    ∧ process_finalize [] [badAgent] [] [] false id id id = .error .agentEndUnset := by
  constructor
  · obtain ⟨x, hx⟩ := C10_agent_end_unwrap.1 c10Entries [ifmAgent]
      (CommandList.mk0 [dmaCommand0]) CommandList.default CommandList.default
      CommandList.default (recsOf (processEntries c10Entries c10Init))
      (stateOf (processEntries c10Entries c10Init)) []
      (by decide) (by decide) rfl
    rw [hx]
    rfl
  · exact C10_agent_end_unwrap.2 [] [badAgent] [] [] id id id
      ⟨badAgent, List.mem_cons_self _ _, rfl, rfl⟩

/-- `mapME` unfolding on nil. -/
theorem mapME_nil {α β : Type} (f : α → Except ConvError β) : mapME f [] = .ok [] := rfl

/-- `mapME` unfolding on cons. -/
theorem mapME_cons {α β : Type} (f : α → Except ConvError β) (a : α) (l : List α) :
    mapME f (a :: l) =
      match f a with
      | .error e => .error e
      | .ok b =>
          match mapME f l with
          | .error e => .error e
          | .ok bs => .ok (b :: bs) := rfl

/-- Mapping a fallible body over a permuted list: when one order succeeds,
every order succeeds and the results are permutations of each other. -/
theorem mapME_ok_perm {α β : Type} (f : α → Except ConvError β) :
    ∀ {l₁ l₂ : List α}, l₁.Perm l₂ → ∀ {r₁ : List β}, mapME f l₁ = .ok r₁ →
      ∃ r₂, mapME f l₂ = .ok r₂ ∧ r₁.Perm r₂ := by
  intro l₁ l₂ hp
  induction hp with
  | nil =>
      intro r₁ h
      exact ⟨r₁, h, List.Perm.refl r₁⟩
  | cons x hp ih =>
      rename_i t₁ t₂
      intro r₁ h
      rw [mapME_cons] at h
      cases hfx : f x with
      | error e => rw [hfx] at h; exact Except.noConfusion h
      | ok b =>
          rw [hfx] at h
          dsimp only at h
          cases hrec : mapME f t₁ with
          | error e => rw [hrec] at h; exact Except.noConfusion h
          | ok bs =>
              rw [hrec] at h
              dsimp only at h
              obtain ⟨bs', hrec', hp'⟩ := ih hrec
              have hr : r₁ = b :: bs := (Except.ok.inj h).symm
              subst hr
              refine ⟨b :: bs', ?_, hp'.cons b⟩
              rw [mapME_cons, hfx]
              dsimp only
              rw [hrec']
  | swap x y l =>
      intro r₁ h
      rw [mapME_cons] at h
      cases hfy : f y with
      | error e => rw [hfy] at h; exact Except.noConfusion h
      | ok by0 =>
          rw [hfy] at h
          dsimp only at h
          rw [mapME_cons] at h
          cases hfx : f x with
          | error e => rw [hfx] at h; exact Except.noConfusion h
          | ok bx0 =>
              rw [hfx] at h
              dsimp only at h
              cases hrec : mapME f l with
              | error e => rw [hrec] at h; exact Except.noConfusion h
              | ok bs =>
                  rw [hrec] at h
                  dsimp only at h
                  have hr : r₁ = by0 :: bx0 :: bs := (Except.ok.inj h).symm
                  subst hr
                  refine ⟨bx0 :: by0 :: bs, ?_, List.Perm.swap bx0 by0 bs⟩
                  rw [mapME_cons, hfx]
                  dsimp only
                  rw [mapME_cons, hfy]
                  dsimp only
                  rw [hrec]
  | trans hp₁ hp₂ ih₁ ih₂ =>
      intro r₁ h
      obtain ⟨r₂, h₂, p₂⟩ := ih₁ h
      obtain ⟨r₃, h₃, p₃⟩ := ih₂ h₂
      exact ⟨r₃, h₃, p₂.trans p₃⟩

/-- Outputs of two `process_finalize` runs on the same inputs, under any two
lawful (permutation-only) models of the three `HashMap` iteration orders:
when one run succeeds, so does the other, with a permuted record list. -/
theorem process_finalize_perm (data : List Record) (agents : List Agent)
    (pn : List (Nat × String)) (tn : List ((Nat × Nat) × String))
    (oB oB' : List ((Nat × Nat) × Record) → List ((Nat × Nat) × Record))
    (oP oP' : List (Nat × String) → List (Nat × String))
    (oT oT' : List ((Nat × Nat) × String) → List ((Nat × Nat) × String))
    (hB : ∀ l, (oB l).Perm l) (hB' : ∀ l, (oB' l).Perm l)
    (hP : ∀ l, (oP l).Perm l) (hP' : ∀ l, (oP' l).Perm l)
    (hT : ∀ l, (oT l).Perm l) (hT' : ∀ l, (oT' l).Perm l)
    (out : List Record)
    (h : process_finalize data agents pn tn false oB oP oT = .ok out) :
    ∃ out', process_finalize data agents pn tn false oB' oP' oT' = .ok out'
      ∧ out.Perm out' := by
  unfold process_finalize at h
  cases hF : finalizeAgentSpans (hash_string "b) Command Stream") agents.enum data tn with
  | error e => rw [hF] at h; exact Except.noConfusion h
  | ok p =>
      obtain ⟨data1, tn'⟩ := p
      rw [hF] at h
      dsimp only at h
      cases hM : mapME recordTs data1 with
      | error e => rw [hM] at h; exact Except.noConfusion h
      | ok tss =>
          rw [hM] at h
          dsimp only at h
          cases hV : validateLoop data1 [] with
          | error e => rw [hV] at h; exact Except.noConfusion h
          | ok be =>
              rw [hV] at h
              dsimp only at h
              cases hE : mapME (notEndedEnd tss.max?) (oB be) with
              | error e => rw [hE] at h; exact Except.noConfusion h
              | ok ends =>
                  rw [hE] at h
                  dsimp only at h
                  have hout : out = data1 ++ ends
                      ++ (oP (insertKV pn (hash_string "b) Command Stream")
                            "b) Command Stream")).map processMeta
                      ++ (oT tn').map threadMeta := (Except.ok.inj h).symm
                  subst hout
                  obtain ⟨ends', hE', hpe⟩ :=
                    mapME_ok_perm (notEndedEnd tss.max?) ((hB be).trans (hB' be).symm) hE
                  refine ⟨data1 ++ ends'
                      ++ (oP' (insertKV pn (hash_string "b) Command Stream")
                            "b) Command Stream")).map processMeta
                      ++ (oT' tn').map threadMeta, ?_, ?_⟩
                  · unfold process_finalize
                    rw [hF]
                    dsimp only
                    rw [hM]
                    dsimp only
                    rw [hV]
                    dsimp only
                    rw [hE']
                    rfl
                  · exact (((List.Perm.refl data1).append hpe).append
                        (List.Perm.map processMeta ((hP _).trans (hP' _).symm))).append
                      (List.Perm.map threadMeta ((hT tn').trans (hT' tn').symm))

/-- The record list of a successful full run (dummy on error). -/
def outOf (x : Except ConvError (List Record)) : List Record :=
  match x with
  | .ok r => r
  | .error _ => []

/-- C6 (counterexample): one `CounterSample` entry, no agents.  The final
output holds two process-metadata records ("z) Counters" and the
"b) Command Stream" row added by the finalizer); their relative order is the
iteration order of the `process_names` `HashMap` (main.rs:669), which Rust
leaves unspecified (per-map random seed).  Two runs modelled with the two
lawful iteration orders `id` and `List.reverse` (the second conjunct shows
`List.reverse` is a permutation, hence a legal iteration order) both succeed
but produce different record lists, refuting byte-identical output. -/
theorem C6_output_order_counterexample :
    (∀ (l : List (Nat × String)), (List.reverse l).Perm l)
    ∧ (process_json [counterEntry] [] CommandList.default CommandList.default
        CommandList.default CommandList.default false id id id).isOk = true
    ∧ (process_json [counterEntry] [] CommandList.default CommandList.default
        CommandList.default CommandList.default false id List.reverse id).isOk = true
    ∧ outOf (process_json [counterEntry] [] CommandList.default CommandList.default
          CommandList.default CommandList.default false id id id)
      ≠ outOf (process_json [counterEntry] [] CommandList.default CommandList.default
          CommandList.default CommandList.default false id List.reverse id) := by
  refine ⟨fun l => List.reverse_perm l, rfl, rfl, ?_⟩
  decide

/-- C6 (amended): every record's fields and the process/thread numeric ids
are pure functions of the inputs, and the output's record *multiset* is
run-independent — under any two lawful (permutation-only) models of the
three `HashMap` iteration orders, two runs of the full pipeline on identical
inputs succeed together and their outputs are permutations of each other.
Byte-identity of the record *order* does not hold: the relative order of the
synthetic not-ended End records and of the trailing process/thread metadata
records follows unspecified `HashMap` iteration order. -/
theorem C6_output_determinism (entries : List Entry) (agents : List Agent)
    (rd wr mce ple : CommandList)
    (oB oB' : List ((Nat × Nat) × Record) → List ((Nat × Nat) × Record))
    (oP oP' : List (Nat × String) → List (Nat × String))
    (oT oT' : List ((Nat × Nat) × String) → List ((Nat × Nat) × String))
    (hB : ∀ l, (oB l).Perm l) (hB' : ∀ l, (oB' l).Perm l)
    (hP : ∀ l, (oP l).Perm l) (hP' : ∀ l, (oP' l).Perm l)
    (hT : ∀ l, (oT l).Perm l) (hT' : ∀ l, (oT' l).Perm l)
    (out : List Record)
    (h : process_json entries agents rd wr mce ple false oB oP oT = .ok out) :
    ∃ out', process_json entries agents rd wr mce ple false oB' oP' oT' = .ok out'
      ∧ out.Perm out' := by
  unfold process_json at h ⊢
  cases hm : processEntries entries
      (initProcState agents rd wr mce ple) with
  | error e => rw [hm] at h; exact Except.noConfusion h
  | ok rs =>
      obtain ⟨result, s⟩ := rs
      rw [hm] at h
      dsimp only at h
      exact process_finalize_perm result s.agents s.process_names s.thread_names
        oB oB' oP oP' oT oT' hB hB' hP hP' hT hT' out h

theorem C6_output_determinism_witness :
    (process_json [counterEntry] [] CommandList.default CommandList.default
      CommandList.default CommandList.default false id List.reverse id).isOk = true := by
  obtain ⟨out', h', _⟩ := C6_output_determinism [counterEntry] [] CommandList.default
    CommandList.default CommandList.default CommandList.default id id id List.reverse
    id id
    (fun l => List.Perm.refl l) (fun l => List.Perm.refl l)
    (fun l => List.Perm.refl l) (fun l => List.reverse_perm l)
    (fun l => List.Perm.refl l) (fun l => List.Perm.refl l)
    (outOf (process_json [counterEntry] [] CommandList.default CommandList.default
      CommandList.default CommandList.default false id id id)) rfl
  rw [h']
  rfl
